import Mathlib

/-!
Verification of the GFF3 genome-browser core (parser, hierarchy builder,
track layout, viewport render pipeline) against its natural-language
specification.

Shallow embedding conventions:
* JavaScript strings are modelled as `List Char`; `lc` converts a Lean
  string literal to that representation.
* JavaScript numbers that are always integral in the relevant code paths
  (`parseInt` results, coordinates) are modelled as `Int`; fractional
  screen-space quantities in the render pipeline are modelled as `ℚ`
  (the JS engine uses binary doubles; all constants involved, such as the
  10% error threshold and pixel-width cutoffs, are modelled with exact
  rational arithmetic, which agrees with the double computation on every
  realizable input size considered by the claims).
* A thrown JS exception is modelled as the `error`/`none` branch of
  `Except`/`Option`.
-/

deriving instance DecidableEq for Except

namespace GenomeBrowser

/-- Convert a Lean string literal to the `List Char` model of JS strings. -/
def lc (s : String) : List Char := s.data

/-- The whitespace characters recognised by `String.prototype.trim` /
`parseInt` leading-whitespace skipping (ASCII subset; the claims only
exercise ASCII input). -/
def jsWhitespace (c : Char) : Bool :=
  c = ' ' ∨ c = '\t' ∨ c = '\n' ∨ c = '\r' ∨ c = '\x0b' ∨ c = '\x0c'

/-- `String.prototype.trim`: drop leading and trailing whitespace. -/
def jsTrim (s : List Char) : List Char :=
  ((s.dropWhile jsWhitespace).reverse.dropWhile jsWhitespace).reverse

/-- `String.prototype.split(sep)` for a single-character separator.
Like in JS, the result is always non-empty and splitting the empty
string yields `[[]]`. -/
def splitOnChar (sep : Char) : List Char → List (List Char)
  | [] => [[]]
  | c :: rest =>
    if c = sep then [] :: splitOnChar sep rest
    else
      match splitOnChar sep rest with
      | [] => [[c]]
      | h :: t => (c :: h) :: t

/-- Decimal digit test used by `parseInt(_, 10)`. -/
def isDigit (c : Char) : Bool := '0' ≤ c ∧ c ≤ '9'

/-- Numeric value of the longest leading run of decimal digits;
`none` when there is no leading digit (`parseInt` yields `NaN`). -/
def leadingDigitsVal (s : List Char) : Option Nat :=
  let ds := s.takeWhile isDigit
  if ds = [] then none
  else some (ds.foldl (fun acc c => acc * 10 + (c.toNat - 48)) 0)

/-- `parseInt(s, 10)`: skip leading whitespace, read an optional sign and
then the longest prefix of decimal digits; `none` models a `NaN` result.
Note that trailing garbage is ignored: `parseInt("3.7") = 3` and
`parseInt("12abc") = 12`. -/
def jsParseInt (s : List Char) : Option Int :=
  match s.dropWhile jsWhitespace with
  | '-' :: rest => (leadingDigitsVal rest).map (fun n => -(n : Int))
  | '+' :: rest => (leadingDigitsVal rest).map (fun n => (n : Int))
  | t => (leadingDigitsVal t).map (fun n => (n : Int))

/-- Value of a hexadecimal digit, if `c` is one. -/
def hexDigit? (c : Char) : Option Nat :=
  if '0' ≤ c ∧ c ≤ '9' then some (c.toNat - 48)
  else if 'A' ≤ c ∧ c ≤ 'F' then some (c.toNat - 55)
  else if 'a' ≤ c ∧ c ≤ 'f' then some (c.toNat - 87)
  else none

/-- Intermediate token of `decodeURIComponent`: either a literal
character of the input or the byte value of one `%hh` escape. -/
inductive UriTok where
  | chr (c : Char)
  | byte (b : Nat)
deriving DecidableEq

/-- First phase of `decodeURIComponent`: replace every `%hh` escape by
its byte value; a `%` not followed by two hexadecimal digits throws
`URIError` (modelled as `none`). -/
def pctScan : List Char → Option (List UriTok)
  | [] => some []
  | '%' :: h1 :: h2 :: rest =>
    match hexDigit? h1, hexDigit? h2 with
    | some a, some b => (pctScan rest).map (UriTok.byte (16 * a + b) :: ·)
    | _, _ => none
  | '%' :: _ => none
  | c :: rest => (pctScan rest).map (UriTok.chr c :: ·)

/-- Is `b` a UTF-8 continuation byte (`0x80..0xBF`)? -/
def isCont (b : Nat) : Bool := 0x80 ≤ b ∧ b < 0xC0

/-- Second phase of `decodeURIComponent`: reassemble the escape bytes
as UTF-8 sequences.  Invalid leading bytes, missing continuation bytes
(including a literal character interrupting a sequence), overlong
encodings, surrogate code points and values above `0x10FFFF` throw
`URIError` (modelled as `none`). -/
def utf8Decode : List UriTok → Option (List Char)
  | [] => some []
  | .chr c :: rest => (utf8Decode rest).map (c :: ·)
  | .byte b :: rest =>
    if b < 0x80 then (utf8Decode rest).map (Char.ofNat b :: ·)
    else if 0xC2 ≤ b ∧ b ≤ 0xDF then
      match rest with
      | .byte c1 :: rest1 =>
        if isCont c1 then
          (utf8Decode rest1).map (Char.ofNat ((b % 0x20) * 0x40 + c1 % 0x40) :: ·)
        else none
      | _ => none
    else if 0xE0 ≤ b ∧ b ≤ 0xEF then
      match rest with
      | .byte c1 :: .byte c2 :: rest2 =>
        if isCont c1 ∧ isCont c2 then
          let cp := (b % 0x10) * 0x1000 + (c1 % 0x40) * 0x40 + c2 % 0x40
          if cp < 0x800 ∨ (0xD800 ≤ cp ∧ cp ≤ 0xDFFF) then none
          else (utf8Decode rest2).map (Char.ofNat cp :: ·)
        else none
      | _ => none
    else if 0xF0 ≤ b ∧ b ≤ 0xF4 then
      match rest with
      | .byte c1 :: .byte c2 :: .byte c3 :: rest3 =>
        if isCont c1 ∧ isCont c2 ∧ isCont c3 then
          let cp := (b % 0x8) * 0x40000 + (c1 % 0x40) * 0x1000 +
            (c2 % 0x40) * 0x40 + c3 % 0x40
          if cp < 0x10000 ∨ 0x10FFFF < cp then none
          else (utf8Decode rest3).map (Char.ofNat cp :: ·)
        else none
      | _ => none
    else none

/-- `decodeURIComponent`: percent escapes are decoded as UTF-8 byte
sequences; any malformed escape throws `URIError`, modelled as `none`.
Characters other than `%` pass through unchanged. -/
def decodeURIComponent (s : List Char) : Option (List Char) :=
  (pctScan s).bind utf8Decode

/-- JS-object / `Map.set` property update: `obj[k] = v` keeps the
insertion position of an existing key (overwriting its value) and
appends a fresh key at the end. -/
def jsObjSet {β : Type} (m : List (List Char × β)) (k : List Char) (v : β) :
    List (List Char × β) :=
  if m.any (fun p => p.1 = k) then
    m.map (fun p => if p.1 = k then (k, v) else p)
  else m ++ [(k, v)]

/-- JS-object / `Map.get` property read: `obj[k]`, `none` models
`undefined`. -/
def jsObjGet {β : Type} (m : List (List Char × β)) (k : List Char) :
    Option β :=
  (m.find? (fun p => p.1 = k)).map (·.2)

/-- JS truthiness of an attribute read: `undefined` and the empty
string are falsy, every other string is truthy. -/
def truthy : Option (List Char) → Bool
  | none => false
  | some s => s ≠ []

/-- Split a segment at the first `=` (the source's `indexOf('=')`);
`none` when the segment contains no `=`. -/
def splitFirstEq : List Char → Option (List Char × List Char)
  | [] => none
  | '=' :: rest => some ([], rest)
  | c :: rest => (splitFirstEq rest).map (fun p => (c :: p.1, p.2))

/-- `parseAttributes` (gff3Parser.js lines 15-38): split column 9 on `;`,
skip blank segments and segments without `=`, trim keys and values,
percent-decode values.  `none` models the `URIError` that
`decodeURIComponent` throws out of the function on a malformed escape. -/
def parseAttributes (attributeString : List Char) :
    Option (List (List Char × List Char)) :=
  if attributeString = [] ∨ attributeString = ['.'] then some []
  else go (splitOnChar ';' attributeString) []
where
  go : List (List Char) → List (List Char × List Char) →
      Option (List (List Char × List Char))
  | [], attributes => some attributes
  | pair :: rest, attributes =>
    let trimmedPair := jsTrim pair
    if trimmedPair = [] then go rest attributes
    else
      match splitFirstEq trimmedPair with
      | none => go rest attributes
      | some (rawKey, rawValue) =>
        match decodeURIComponent (jsTrim rawValue) with
        | none => none
        | some value => go rest (jsObjSet attributes (jsTrim rawKey) value)

/-- The distinct per-line failure classes thrown by `parseGFF3Line`
(the JS source throws plain `Error`s whose message strings identify the
class; the message text, which also interpolates the line number, is
modelled by this inductive).  `uriError` is the `URIError` escaping from
`decodeURIComponent`, a failure class outside the four documented ones. -/
inductive LineError where
  | columnCount (got : Nat)
  | coordinateType
  | coordinateOrder (s e : Int)
  | strandValue (tok : List Char)
  | uriError
deriving DecidableEq

/-- One parsed feature record (gff3Parser.js lines 92-105).  The JS
object's `children`/`parent` fields, which are mutated later by
`buildHierarchy`, are embedded arena-style: features are identified by
their index in the flat feature list and the hierarchy output carries
the children/parent tables (see `Hierarchy`).  `endPos` models the
source's `end` field (a reserved word in Lean); `score` keeps the raw
token when it is not `"."` (its `parseFloat` value is floating-point
and never inspected by the claims); `phase` is `none` for `"."` and
otherwise carries the `parseInt` result (`none` inside models `NaN`). -/
structure Feature where
  seqid : List Char
  source : List Char
  type : List Char
  start : Int
  endPos : Int
  score : Option (List Char)
  strand : List Char
  phase : Option (Option Int)
  attributes : List (List Char × List Char)
  lineNumber : Nat
deriving DecidableEq

/-- The body of `parseGFF3Line` after the source's destructuring
assignment `const [seqid, source, type, start, end, score, strand,
phase, attributeString] = columns` (gff3Parser.js lines 64-105). -/
def parseColumns (seqid source type startTok endTok scoreTok strandTok
    phaseTok attributeString : List Char) (lineNumber : Nat) :
    Except LineError (Option Feature) :=
  match jsParseInt startTok, jsParseInt endTok with
  | some startPos, some endPos =>
    if startPos > endPos then .error (.coordinateOrder startPos endPos)
    else if strandTok ≠ lc "+" ∧ strandTok ≠ lc "-" ∧ strandTok ≠ lc "." ∧
        strandTok ≠ lc "?" then
      .error (.strandValue strandTok)
    else
      match parseAttributes attributeString with
      | none => .error .uriError
      | some attributes =>
        .ok (some
          { seqid, source, type
            start := startPos
            endPos := endPos
            score := if scoreTok = lc "." then none else some scoreTok
            strand := strandTok
            phase := if phaseTok = lc "." then none else some (jsParseInt phaseTok)
            attributes, lineNumber })
  | _, _ => .error .coordinateType

/-- `parseGFF3Line` (gff3Parser.js lines 47-106): trim, skip blank and
`#` lines (`ok none`), split on tabs, demand 9 columns, then the
destructured column logic of `parseColumns`.  `error` models a thrown
exception. -/
def parseGFF3Line (line : List Char) (lineNumber : Nat) :
    Except LineError (Option Feature) :=
  if jsTrim line = [] then .ok none
  else if (jsTrim line).head? = some '#' then .ok none
  else
    match splitOnChar '\t' (jsTrim line) with
    | [seqid, source, type, startTok, endTok, scoreTok, strandTok, phaseTok,
        attributeString] =>
      parseColumns seqid source type startTok endTok scoreTok strandTok
        phaseTok attributeString lineNumber
    | other => .error (.columnCount other.length)

/-! ## Hierarchy builder

The JS `buildHierarchy` (gff3Parser.js lines 115-156) mutates the
feature objects (`feature.parent`, `parent.children.push`).  The
embedding is arena-indexed: a feature is identified by its position in
the flat `features` list, and the mutated object graph is carried as
`children` / `parent` tables indexed by position.  `console.warn`
emissions for unresolved parents are recorded in `warnings`. -/

/-- Result of `buildHierarchy`. -/
structure Hierarchy where
  featureById : List (List Char × Nat)
  rootFeatures : List Nat
  children : List (List Nat)
  parent : List (Option Nat)
  warnings : List Nat
deriving DecidableEq

/-- First pass of `buildHierarchy`: index every feature carrying a
truthy `ID` attribute; a duplicate `ID` overwrites the earlier entry. -/
def indexPass (features : List Feature) : List (List Char × Nat) :=
  features.enum.foldl
    (fun featureById p =>
      match jsObjGet p.2.attributes (lc "ID") with
      | some idv => if idv ≠ [] then jsObjSet featureById idv p.1 else featureById
      | none => featureById)
    []

/-- Mutable state of the second pass of `buildHierarchy`. -/
structure LinkState where
  rootFeatures : List Nat
  children : List (List Nat)
  parent : List (Option Nat)
  warnings : List Nat
deriving DecidableEq

/-- One iteration of the second pass of `buildHierarchy` on the feature
at index `p.1`: a truthy `Parent` attribute is resolved against
`featureById`; if found, the feature is appended to the parent's
children and back-linked, otherwise a `console.warn` is recorded and
the feature becomes a root; without a truthy `Parent` it is a root. -/
def linkStep (featureById : List (List Char × Nat)) (st : LinkState)
    (p : Nat × Feature) : LinkState :=
  let parentId := jsObjGet p.2.attributes (lc "Parent")
  if truthy parentId then
    match parentId.bind (jsObjGet featureById) with
    | some parent =>
      { st with
        children := st.children.set parent (st.children.getD parent [] ++ [p.1])
        parent := st.parent.set p.1 (some parent) }
    | none =>
      { st with
        warnings := st.warnings ++ [p.1]
        rootFeatures := st.rootFeatures ++ [p.1] }
  else { st with rootFeatures := st.rootFeatures ++ [p.1] }

/-- `buildHierarchy` (gff3Parser.js lines 115-156). -/
def buildHierarchy (features : List Feature) : Hierarchy :=
  let featureById := indexPass features
  let st := features.enum.foldl (linkStep featureById)
    { rootFeatures := []
      children := List.replicate features.length []
      parent := List.replicate features.length none
      warnings := [] }
  { featureById
    rootFeatures := st.rootFeatures
    children := st.children
    parent := st.parent
    warnings := st.warnings }

/-- Preorder traversal of the children tables starting from a list of
feature indices, with explicit fuel (the recursion of `getDescendants`
in the source; fuel `features.length` is enough to exhaust any acyclic
hierarchy). -/
def traverseFrom (children : List (List Nat)) : Nat → List Nat → List Nat
  | 0, _ => []
  | fuel + 1, roots =>
    (roots.map (fun n => n :: traverseFrom children fuel (children.getD n []))).flatten

/-! ## File-level parser -/

/-- One entry of the `errors` list (gff3Parser.js lines 185-189): the
1-based line number, the thrown error (whose JS message string is
modelled by the `LineError` class) and the first 100 characters of the
offending line. -/
structure ErrorEntry where
  lineNumber : Nat
  message : LineError
  line : List Char
deriving DecidableEq

/-- The fatal errors thrown by `parseGFF3` itself: the input-guard
error for a missing/empty buffer, and the aggregate malformed-file
error carrying the first five per-line errors plus the count of the
remaining ones reported in its message. -/
inductive FileError where
  | invalidInput
  | malformed (shown : List ErrorEntry) (more : Nat)
deriving DecidableEq

/-- `fileContent.split(/\r?\n/)`: both `\n` and `\r\n` separate lines,
a lone `\r` is ordinary content.  Always returns at least one piece. -/
def splitLinesJS : List Char → List (List Char)
  | [] => [[]]
  | '\r' :: '\n' :: rest => [] :: splitLinesJS rest
  | '\n' :: rest => [] :: splitLinesJS rest
  | c :: rest =>
    match splitLinesJS rest with
    | [] => [[c]]
    | h :: t => (c :: h) :: t

/-- The per-line loop of `parseGFF3` (gff3Parser.js lines 175-191):
each line is parsed independently; a returned feature is appended to
`features`, a thrown error is caught and appended to `errors` with the
line truncated to 100 characters.  `i` is the 0-based index of the
first line of the slice. -/
def parseLinesLoop : List (List Char) → Nat → List Feature × List ErrorEntry
  | [], _ => ([], [])
  | line :: rest, i =>
    let lineNumber := i + 1
    let tail := parseLinesLoop rest (i + 1)
    match parseGFF3Line line lineNumber with
    | .ok (some feature) => (feature :: tail.1, tail.2)
    | .ok none => tail
    | .error e =>
      (tail.1, { lineNumber, message := e, line := line.take 100 } :: tail.2)

/-- Insertion into a JS `Set` (insertion-ordered, deduplicating). -/
def setAdd (s : List (List Char)) (x : List Char) : List (List Char) :=
  if x ∈ s then s else s ++ [x]

/-- The extent fold of `parseGFF3` (gff3Parser.js lines 206-224):
minimum start and maximum end over all features, `(0, 0)` when the
fold never updates the `±Infinity` initial values, i.e. when there are
no features. -/
def extentOf : List Feature → Int × Int
  | [] => (0, 0)
  | f :: rest =>
    (rest.foldl (fun m g => min m g.start) f.start,
     rest.foldl (fun m g => max m g.endPos) f.endPos)

/-- The structured result of a successful `parseGFF3` call
(gff3Parser.js lines 218-234).  `stats*` fields flatten the `stats`
object; hierarchy tables are arena-indexed as in `Hierarchy`. -/
structure ParseResult where
  features : List Feature
  rootFeatures : List Nat
  featureById : List (List Char × Nat)
  children : List (List Nat)
  parent : List (Option Nat)
  warnings : List Nat
  extentStart : Int
  extentEnd : Int
  sequences : List (List Char)
  featureTypes : List (List Char)
  statsTotalFeatures : Nat
  statsRootFeatures : Nat
  statsErrors : Nat
  errors : List ErrorEntry
deriving DecidableEq

/-- `parseGFF3` (gff3Parser.js lines 165-235).  The threshold test
`errors.length > 0 && errors.length / lines.length > 0.1` is modelled
with the exact rational comparison `10 * errors.length > lines.length`
(the double-precision division the JS engine performs agrees with the
exact comparison for every line count below 2^53 / 10). -/
def parseGFF3 (fileContent : List Char) : Except FileError ParseResult :=
  if fileContent = [] then .error .invalidInput
  else
    let lines := splitLinesJS fileContent
    let parsed := parseLinesLoop lines 0
    let features := parsed.1
    let errors := parsed.2
    if errors.length > 0 ∧ 10 * errors.length > lines.length then
      .error (.malformed (errors.take 5)
        (if errors.length > 5 then errors.length - 5 else 0))
    else
      let hierarchy := buildHierarchy features
      let extent := extentOf features
      .ok
        { features
          rootFeatures := hierarchy.rootFeatures
          featureById := hierarchy.featureById
          children := hierarchy.children
          parent := hierarchy.parent
          warnings := hierarchy.warnings
          extentStart := extent.1
          extentEnd := extent.2
          sequences := features.foldl (fun s f => setAdd s f.seqid) []
          featureTypes := features.foldl (fun s f => setAdd s f.type) []
          statsTotalFeatures := features.length
          statsRootFeatures := hierarchy.rootFeatures.length
          statsErrors := errors.length
          errors }

/-! ## Track layout engine (GenomeBrowser.jsx `organizeIntoTracks`)

The layout and render stages consume the mutated object graph of root
features with fully populated children lists; that graph is embedded
as the tree type `FTree`. -/

/-- A feature node together with its populated `children` list, as the
layout/render stage sees it. -/
inductive FTree where
  | node (data : Feature) (children : List FTree)

mutual

/-- Decidable equality for `FTree` (the nested recursion defeats
`deriving`). -/
def FTree.decEq : (a b : FTree) → Decidable (a = b)
  | .node d cs, .node e ds =>
    if hd : d = e then
      match FTree.decEqList cs ds with
      | isTrue h => isTrue (by rw [hd, h])
      | isFalse h => isFalse (by intro hc; injection hc with h1 h2; exact h h2)
    else isFalse (by intro hc; injection hc with h1 h2; exact hd h1)

/-- Decidable equality for lists of `FTree`. -/
def FTree.decEqList : (as bs : List FTree) → Decidable (as = bs)
  | [], [] => isTrue rfl
  | a :: as, b :: bs =>
    match FTree.decEq a b with
    | isTrue h =>
      match FTree.decEqList as bs with
      | isTrue h2 => isTrue (by rw [h, h2])
      | isFalse h2 => isFalse (by intro hc; injection hc with h3 h4; exact h2 h4)
    | isFalse h => isFalse (by intro hc; injection hc with h3 h4; exact h h3)
  | [], _ :: _ => isFalse (fun h => nomatch h)
  | _ :: _, [] => isFalse (fun h => nomatch h)

end

instance : DecidableEq FTree := FTree.decEq

/-- The flat record of a node. -/
def FTree.data : FTree → Feature
  | .node d _ => d

/-- The children of a node. -/
def FTree.children : FTree → List FTree
  | .node _ cs => cs

/-- `hasOverlap` (GenomeBrowser.jsx lines 1139-1143): `feature`
overlaps some member of `track` unless one ends strictly before the
other begins. -/
def hasOverlap (track : List FTree) (feature : FTree) : Bool :=
  track.any (fun f =>
    ¬(f.data.endPos < feature.data.start ∨ f.data.start > feature.data.endPos))

/-- The inner loop of `organizeIntoTracks`: place one feature into the
first existing track it does not overlap, or open a new track at the
end. -/
def placeFeature : List (List FTree) → FTree → List (List FTree)
  | [], feature => [[feature]]
  | track :: rest, feature =>
    if hasOverlap track feature then track :: placeFeature rest feature
    else (track ++ [feature]) :: rest

/-- `organizeIntoTracks` (GenomeBrowser.jsx lines 1115-1137): greedy
first-fit lane assignment in input (file) order. -/
def organizeIntoTracks (features : List FTree) : List (List FTree) :=
  features.foldl placeFeature []

/-! ## Viewport render pipeline (GenomeBrowser.jsx `updateFeatures`)

Screen-space quantities are modelled as exact rationals.  D3's linear
scale and its `invert` are affine maps. -/

/-- An affine screen scale `x ↦ a * x + b` (d3 linear scale after a
zoom transform has been applied). -/
structure LinearScale where
  a : ℚ
  b : ℚ
deriving DecidableEq

/-- Apply the scale: genomic coordinate to screen position. -/
def LinearScale.applyTo (sc : LinearScale) (x : ℚ) : ℚ := sc.a * x + sc.b

/-- `scale.invert`: screen position to genomic coordinate. -/
def LinearScale.invert (sc : LinearScale) (y : ℚ) : ℚ := (y - sc.b) / sc.a

/-- One SVG draw primitive appended by the render functions, tagged
with the source feature record used for hit-testing (intron connector
lines carry no feature tag in the source; they are tagged here with
the two screen endpoints only). -/
inductive Prim where
  | genePath (feature : Feature)
  | exonRect (feature : Feature)
  | cdsRect (feature : Feature)
  | intronLine (x1 x2 : ℚ)
deriving DecidableEq

/-- The feature a primitive is tagged with (`none` for intron lines). -/
def Prim.src : Prim → Option Feature
  | .genePath f => some f
  | .exonRect f => some f
  | .cdsRect f => some f
  | .intronLine _ _ => none

/-- `maxFeaturesToRender` (GenomeBrowser.jsx line 794). -/
def maxFeaturesToRender : Nat := 5000

/-- `renderExon` (GenomeBrowser.jsx lines 1004-1027): one rect. -/
def renderExon (feature : Feature) : List Prim := [.exonRect feature]

/-- `renderCDS` (GenomeBrowser.jsx lines 1029-1052): one rect. -/
def renderCDS (feature : Feature) : List Prim := [.cdsRect feature]

/-- `renderMRNA` (GenomeBrowser.jsx lines 895-1002): sort the exon
children by start, draw the intron connectors between consecutive
exons and the exon/CDS blocks, each culled against the *unpadded*
viewport, with a half-pixel minimum width for the blocks.  The mRNA
node itself contributes no primitive. -/
def renderMRNA (sc : LinearScale) (surfaceWidth : ℚ) (cs : List FTree) :
    List Prim :=
  let viewStart := sc.invert 0
  let viewEnd := sc.invert surfaceWidth
  let exons := (cs.filter (fun c => c.data.type = lc "exon")).mergeSort
    (fun a b => a.data.start ≤ b.data.start)
  let cdss := cs.filter (fun c => c.data.type = lc "CDS")
  let intronPrims := (exons.zip exons.tail).filterMap (fun p =>
    if (p.2.data.start : ℚ) < viewStart ∨ (p.1.data.endPos : ℚ) > viewEnd then
      none
    else
      some (Prim.intronLine (sc.applyTo p.1.data.endPos)
        (sc.applyTo p.2.data.start)))
  let exonPrims := exons.filterMap (fun e =>
    if (e.data.endPos : ℚ) < viewStart ∨ (e.data.start : ℚ) > viewEnd then none
    else
      let w := sc.applyTo e.data.endPos - sc.applyTo e.data.start
      if w < 1 / 2 then none else some (Prim.exonRect e.data))
  let cdsPrims := cdss.filterMap (fun c =>
    if (c.data.endPos : ℚ) < viewStart ∨ (c.data.start : ℚ) > viewEnd then none
    else
      let w := sc.applyTo c.data.endPos - sc.applyTo c.data.start
      if w < 1 / 2 then none else some (Prim.cdsRect c.data))
  intronPrims ++ exonPrims ++ cdsPrims

mutual

/-- `renderFeature` (GenomeBrowser.jsx lines 826-849): skip features
narrower than one pixel, then dispatch on the feature type; types
other than gene/mRNA/exon/CDS draw nothing.  The gene branch inlines
the body of the source's `renderGene` (the arrow path followed by the
children loop at doubled height — see `renderGene` below, which is
the same body as a standalone definition). -/
def renderFeature (sc : LinearScale) (surfaceWidth height : ℚ) :
    FTree → List Prim
  | .node d cs =>
    let featureWidth := sc.applyTo d.endPos - sc.applyTo d.start
    if featureWidth < 1 then []
    else if d.type = lc "gene" then
      Prim.genePath d ::
        renderChildren sc surfaceWidth ((height * (3 / 10)) * 2) cs
    else if d.type = lc "mRNA" then renderMRNA sc surfaceWidth cs
    else if d.type = lc "exon" then renderExon d
    else if d.type = lc "CDS" then renderCDS d
    else []
termination_by structural t => t

/-- The `feature.children.forEach(child => renderFeature(...))` loop
of `renderGene` (GenomeBrowser.jsx lines 890-892). -/
def renderChildren (sc : LinearScale) (surfaceWidth height : ℚ) :
    List FTree → List Prim
  | [] => []
  | t :: ts =>
    renderFeature sc surfaceWidth height t ++
      renderChildren sc surfaceWidth height ts
termination_by structural l => l

end

/-- `renderGene` (GenomeBrowser.jsx lines 851-893): one arrow path for
the gene body, then `renderFeature` on every child (no viewport test)
with doubled height.  `renderFeature` dispatches to exactly this body
for gene-typed features, at height `height * 0.3`. -/
def renderGene (sc : LinearScale) (surfaceWidth : ℚ) (d : Feature)
    (cs : List FTree) (height : ℚ) : List Prim :=
  Prim.genePath d :: renderChildren sc surfaceWidth (height * 2) cs

/-- The `track.forEach(feature => ...)` body of `updateFeatures`
(GenomeBrowser.jsx lines 804-814): skip once the render cap is
reached, skip roots entirely outside the padded window, otherwise
render the root and increment `renderedCount`. -/
def updateFeatureStep (sc : LinearScale) (surfaceWidth trackHeight : ℚ)
    (acc : List Prim × Nat) (feature : FTree) : List Prim × Nat :=
  let viewStart := sc.invert 0
  let viewEnd := sc.invert surfaceWidth
  let viewportPadding := (viewEnd - viewStart) * (1 / 10)
  if acc.2 ≥ maxFeaturesToRender then acc
  else if (feature.data.endPos : ℚ) < viewStart - viewportPadding ∨
      (feature.data.start : ℚ) > viewEnd + viewportPadding then acc
  else
    (acc.1 ++ renderFeature sc surfaceWidth trackHeight feature, acc.2 + 1)

/-- The `tracks.forEach((track, trackIndex) => ...)` body of
`updateFeatures` (GenomeBrowser.jsx lines 796-815): skip the whole
track once the cap is reached, else process its features in order. -/
def updateTrackStep (sc : LinearScale) (surfaceWidth trackHeight : ℚ)
    (acc : List Prim × Nat) (track : List FTree) : List Prim × Nat :=
  if acc.2 ≥ maxFeaturesToRender then acc
  else track.foldl (updateFeatureStep sc surfaceWidth trackHeight) acc

/-- `updateFeatures` (GenomeBrowser.jsx lines 786-820): walk the
tracks in order from an empty primitive list and `renderedCount = 0`.
Returns the emitted primitives and the final `renderedCount`. -/
def updateFeatures (sc : LinearScale) (surfaceWidth trackHeight : ℚ)
    (tracks : List (List FTree)) : List Prim × Nat :=
  tracks.foldl (updateTrackStep sc surfaceWidth trackHeight) ([], 0)

/-! ## Zoom throttling (GenomeBrowser.jsx lines 676-715)

The `d3.zoom` handler's timer discipline is embedded as a state
machine.  Browser timers are modelled as a list of armed timers with
identities, so that "at most one pending deferred task" is a provable
property of the handler rather than an assumption of the model;
`requestAnimationFrame` delays are collapsed into the firing instant. -/

/-- `throttleInterval` (GenomeBrowser.jsx line 679), in milliseconds. -/
def throttleInterval : ℚ := 60

/-- One armed `setTimeout` timer: its id, absolute firing time, and
the `newXScale` captured by the callback closure. -/
structure Timer where
  id : Nat
  fireTime : ℚ
  payload : LinearScale
deriving DecidableEq

/-- The handler's mutable state: the armed browser timers, the
`zoomTimeout` variable holding the latest timer id, `lastUpdateTime`,
a fresh-id counter, and the log of completed redraws
`(completion time, scale rendered)`. -/
structure ZoomSim where
  timers : List Timer
  zoomTimeout : Option Nat
  lastUpdateTime : ℚ
  nextId : Nat
  rendered : List (ℚ × LinearScale)
deriving DecidableEq

/-- Initial state: no timers, `lastUpdateTime = 0`, nothing rendered. -/
def ZoomSim.init : ZoomSim :=
  { timers := [], zoomTimeout := none, lastUpdateTime := 0, nextId := 0
    rendered := [] }

/-- `clearTimeout(zoomTimeout)`: disarm the timer with the stored id,
a no-op when the variable is unset or the timer already fired. -/
def clearZoomTimeout (timers : List Timer) : Option Nat → List Timer
  | none => timers
  | some i => timers.filter (fun t => t.id ≠ i)

/-- The zoom event handler (GenomeBrowser.jsx lines 690-715) at event
time `now` with rescaled transform `newXScale`: within
`throttleInterval` of the last update it clears the pending timeout
and arms a new one a full `throttleInterval` after `now`; otherwise it
redraws immediately and records `now` as the last update time (without
touching any pending timer). -/
def onZoom (s : ZoomSim) (now : ℚ) (newXScale : LinearScale) : ZoomSim :=
  if now - s.lastUpdateTime < throttleInterval then
    { s with
      timers := clearZoomTimeout s.timers s.zoomTimeout ++
        [{ id := s.nextId, fireTime := now + throttleInterval
           payload := newXScale }]
      zoomTimeout := some s.nextId
      nextId := s.nextId + 1 }
  else
    { s with
      lastUpdateTime := now
      rendered := s.rendered ++ [(now, newXScale)] }

/-- The armed timer `i` reaches its firing time: its callback redraws
with the captured scale and sets `lastUpdateTime`; the timer is
disarmed.  Firing an id that is not armed is a no-op. -/
def fireTimer (s : ZoomSim) (i : Nat) : ZoomSim :=
  match s.timers.find? (fun t => t.id = i) with
  | none => s
  | some t =>
    { s with
      timers := s.timers.filter (fun u => u.id ≠ i)
      rendered := s.rendered ++ [(t.fireTime, t.payload)]
      lastUpdateTime := t.fireTime }

/-- An observable event of the zoom handler's world: a zoom transform
arriving, or an armed timer firing. -/
inductive ZoomEvent where
  | transform (now : ℚ) (newXScale : LinearScale)
  | fire (i : Nat)
deriving DecidableEq

/-- Process one event. -/
def stepEvent (s : ZoomSim) : ZoomEvent → ZoomSim
  | .transform now τ => onZoom s now τ
  | .fire i => fireTimer s i

/-- Run a sequence of events from a state. -/
def runEvents (s : ZoomSim) (es : List ZoomEvent) : ZoomSim :=
  es.foldl stepEvent s

/-! ## Auxiliary predicates used by the claim statements -/

/-- Does a root feature survive the padded-viewport cull of
`updateFeatures` for scale `sc` and draw-surface width
`surfaceWidth`? -/
def inPaddedWindow (sc : LinearScale) (surfaceWidth : ℚ) (f : FTree) : Bool :=
  let viewStart := sc.invert 0
  let viewEnd := sc.invert surfaceWidth
  let viewportPadding := (viewEnd - viewStart) * (1 / 10)
  ¬((f.data.endPos : ℚ) < viewStart - viewportPadding ∨
    (f.data.start : ℚ) > viewEnd + viewportPadding)

/-- Spec-side restatement of the lane test (spec §4.3), for the
refinement half of the layout claim: a lane qualifies when every
feature already in it ends strictly before the new feature begins or
begins strictly after it ends. -/
def specLaneFits (lane : List FTree) (f : FTree) : Bool :=
  lane.all (fun b =>
    b.data.endPos < f.data.start ∨ f.data.endPos < b.data.start)

/-- Spec-side restatement of placement (spec §4.3): the first
qualifying lane receives the feature at its end; a new lane is opened
when none qualifies. -/
def specPlaceFeature : List (List FTree) → FTree → List (List FTree)
  | [], f => [[f]]
  | lane :: rest, f =>
    if specLaneFits lane f then (lane ++ [f]) :: rest
    else lane :: specPlaceFeature rest f

/-- Spec-side restatement of the track layout (spec §4.3): greedy
first-fit in file order. -/
def specOrganizeIntoTracks (features : List FTree) : List (List FTree) :=
  features.foldl specPlaceFeature []

/-- Number of occurrences of feature index `i` across the root list
and all children lists of a built hierarchy. -/
def occurrenceCount (rootFeatures : List Nat) (children : List (List Nat))
    (i : Nat) : Nat :=
  rootFeatures.count i + (children.map (fun l => l.count i)).sum

/-- Does the link pass make the feature of `p` a root (no truthy
`Parent`, or a `Parent` that does not resolve)? -/
def linkIsRoot (featureById : List (List Char × Nat)) (p : Nat × Feature) :
    Bool :=
  let parentId := jsObjGet p.2.attributes (lc "Parent")
  ¬ truthy parentId ∨ parentId.bind (jsObjGet featureById) = none

/-- Does the link pass emit a `console.warn` for `p` (truthy `Parent`
that does not resolve)? -/
def linkIsWarn (featureById : List (List Char × Nat)) (p : Nat × Feature) :
    Bool :=
  let parentId := jsObjGet p.2.attributes (lc "Parent")
  truthy parentId ∧ parentId.bind (jsObjGet featureById) = none

/-- Number of root features inside the padded window, summed over all
tracks — the roots eligible for rendering in one redraw. -/
def eligibleRoots (sc : LinearScale) (surfaceWidth : ℚ)
    (tracks : List (List FTree)) : Nat :=
  (tracks.map (fun tr => tr.countP (inPaddedWindow sc surfaceWidth))).sum

/-- The scheduler safety property: at most one deferred task is armed,
and any armed task is the one tracked by the `zoomTimeout` variable. -/
def atMostOnePending (s : ZoomSim) : Prop :=
  s.timers.length ≤ 1 ∧ ∀ t ∈ s.timers, s.zoomTimeout = some t.id

/-! ## Concrete instances used by witnesses and counterexamples -/

/-- A minimal feature record with the given type and coordinates. -/
def sampleFeature (type : List Char) (s e : Int) : Feature :=
  { seqid := lc "chr1", source := lc "src", type := type, start := s
    endPos := e, score := none, strand := lc "+", phase := none
    attributes := [], lineNumber := 1 }

/-- A feature node with the given type, coordinates and children. -/
def sampleTree (type : List Char) (s e : Int) (cs : List FTree) : FTree :=
  .node (sampleFeature type s e) cs

/-- A run of `n` unit-width exon children at positions `2k..2k+1`. -/
def exonRun (n : Nat) : List FTree :=
  (List.range n).map (fun (k : Nat) =>
    sampleTree (lc "exon") (2 * (k : Int)) (2 * (k : Int) + 1) [])

/-- A gene spanning `0..20000` with `n` exon children. -/
def wideGene (n : Nat) : FTree :=
  .node (sampleFeature (lc "gene") 0 20000) (exonRun n)

/-- A feature whose `Parent` attribute names its own `ID` (the
self-cycle scenario). -/
def selfParentFeature : Feature :=
  { seqid := lc "chr1", source := lc "src", type := lc "gene", start := 1
    endPos := 10, score := none, strand := lc "+", phase := none
    attributes := [(lc "ID", lc "A"), (lc "Parent", lc "A")]
    lineNumber := 1 }

/-- A feature whose `Parent` attribute resolves to no indexed `ID`. -/
def orphanFeature : Feature :=
  { seqid := lc "chr1", source := lc "src", type := lc "gene", start := 1
    endPos := 10, score := none, strand := lc "+", phase := none
    attributes := [(lc "ID", lc "g1"), (lc "Parent", lc "missingID")]
    lineNumber := 1 }

end GenomeBrowser

namespace GenomeBrowser

/-! ## Helper lemmas -/

/-- Appending one whitespace character does not change the trim. -/
theorem jsTrim_append_ws (s : List Char) (c : Char)
    (hc : jsWhitespace c = true) : jsTrim (s ++ [c]) = jsTrim s := by
  unfold jsTrim
  rw [List.dropWhile_append]
  by_cases h : (s.dropWhile jsWhitespace).isEmpty
  · rw [List.isEmpty_iff] at h
    simp [h, List.dropWhile, hc]
  · have h' : (s.dropWhile jsWhitespace).isEmpty = false := by simpa using h
    simp only [h', Bool.false_eq_true, if_false, List.reverse_append,
      List.reverse_singleton, List.singleton_append]
    simp [List.dropWhile, hc]

/-- On a non-blank, non-comment line that splits into nine columns,
`parseGFF3Line` is the destructured column logic. -/
theorem parseGFF3Line_eq_parseColumns (line : List Char) (n : Nat)
    (seqid source ftype startTok endTok scoreTok strandTok phaseTok
      attrs : List Char)
    (h1 : jsTrim line ≠ [])
    (h2 : (jsTrim line).head? ≠ some '#')
    (h3 : splitOnChar '\t' (jsTrim line) =
      [seqid, source, ftype, startTok, endTok, scoreTok, strandTok,
        phaseTok, attrs]) :
    parseGFF3Line line n =
      parseColumns seqid source ftype startTok endTok scoreTok strandTok
        phaseTok attrs n := by
  unfold parseGFF3Line
  rw [if_neg h1, if_neg h2, h3]

/-- The two coordinate failure modes of the destructured column logic:
`coordinateType` exactly when `parseInt` yields `NaN` on a coordinate
token, and `coordinateOrder` exactly when both parse and the parsed
start exceeds the parsed end. -/
theorem parseColumns_coordinate_spec (startTok endTok : List Char)
    (seqid source ftype scoreTok strandTok phaseTok attrs : List Char)
    (n : Nat) :
    ((parseColumns seqid source ftype startTok endTok scoreTok strandTok
        phaseTok attrs n = .error .coordinateType) ↔
      (jsParseInt startTok = none ∨ jsParseInt endTok = none)) ∧
    (∀ s e : Int, jsParseInt startTok = some s → jsParseInt endTok = some e →
      ((parseColumns seqid source ftype startTok endTok scoreTok strandTok
          phaseTok attrs n = .error (.coordinateOrder s e)) ↔ s > e)) := by
  constructor
  · unfold parseColumns
    cases hs : jsParseInt startTok <;> cases he : jsParseInt endTok <;>
      dsimp only
    · simp
    · simp
    · simp
    · rename_i s e
      refine iff_of_false ?_ (by simp)
      intro h
      by_cases ho : s > e
      · rw [if_pos ho] at h; cases Except.error.inj h
      · rw [if_neg ho] at h
        by_cases hst : strandTok ≠ lc "+" ∧ strandTok ≠ lc "-" ∧
            strandTok ≠ lc "." ∧ strandTok ≠ lc "?"
        · rw [if_pos hst] at h; cases Except.error.inj h
        · rw [if_neg hst] at h
          cases hat : parseAttributes attrs <;> rw [hat] at h
          · cases Except.error.inj h
          · cases h
  · intro s e hs he
    unfold parseColumns
    rw [hs, he]
    dsimp only
    by_cases ho : s > e
    · rw [if_pos ho]; simpa using ho
    · rw [if_neg ho]
      refine iff_of_false ?_ ho
      intro h
      by_cases hst : strandTok ≠ lc "+" ∧ strandTok ≠ lc "-" ∧
          strandTok ≠ lc "." ∧ strandTok ≠ lc "?"
      · rw [if_pos hst] at h; cases Except.error.inj h
      · rw [if_neg hst] at h
        cases hat : parseAttributes attrs <;> rw [hat] at h
        · cases Except.error.inj h
        · cases h

/-- Every feature object that `parseGFF3Line` returns satisfies
`start ≤ end`. -/
theorem parseGFF3Line_start_le_end (line : List Char) (n : Nat) (f : Feature)
    (h : parseGFF3Line line n = .ok (some f)) : f.start ≤ f.endPos := by
  unfold parseGFF3Line at h
  split at h
  · cases h
  · split at h
    · cases h
    · split at h
      · unfold parseColumns at h
        split at h
        · split at h
          · cases h
          · split at h
            · cases h
            · split at h
              · cases h
              · injection h with h'
                injection h' with h''
                subst h''
                simp only [Feature.start, Feature.endPos]
                omega
        · cases h
      · cases h

/-! ## Claim C10 -/

/-- C10: every line is trimmed before being split on tabs, so a record
line ending in a tab (an empty ninth column) loses that column: parsing
is unchanged by a trailing tab, and the concrete nine-column line with
an empty attribute column fails with the column-count error for eight
columns instead of yielding a feature. -/
theorem trailing_tab_column_count :
    (∀ (s : List Char) (n : Nat),
      parseGFF3Line (s ++ ['\t']) n = parseGFF3Line s n) ∧
    parseGFF3Line (lc "chr1\tsrc\tgene\t1\t10\t.\t+\t.\t") 1 =
      .error (.columnCount 8) := by
  constructor
  · intro s n
    unfold parseGFF3Line
    rw [jsTrim_append_ws s '\t' (by decide)]
  · decide

/-! ## Claim C5 -/

/-- C5 counterexample: the line whose start token is `3.7` parses
successfully into a feature with `start = 3` (JS `parseInt` truncates
at the first non-digit), contradicting the claim that a fractional
start token never yields a feature and that `CoordinateTypeError` is
raised whenever a coordinate token is not an integer literal. -/
theorem parseInt_fractional_yields_feature :
    parseGFF3Line (lc "chr1\tsrc\tgene\t3.7\t10\t.\t+\t.\tID=x") 1 =
      .ok (some
        { seqid := lc "chr1", source := lc "src", type := lc "gene"
          start := 3, endPos := 10, score := none, strand := lc "+"
          phase := none, attributes := [(lc "ID", lc "x")]
          lineNumber := 1 }) := by
  decide

/-- C5 amended: for every non-comment line with exactly nine
tab-separated columns, parsing fails with `CoordinateTypeError` iff
`parseInt` yields `NaN` on the start or end token (a token with an
integer prefix such as `3.7` or `12abc` parses to that prefix instead),
fails with `CoordinateOrderError` exactly when both tokens parse and
the parsed start exceeds the parsed end, and every feature returned
satisfies `start ≤ end`. -/
theorem coordinate_error_classification :
    (∀ (line : List Char) (n : Nat)
      (seqid source ftype startTok endTok scoreTok strandTok phaseTok
        attrs : List Char),
      jsTrim line ≠ [] →
      (jsTrim line).head? ≠ some '#' →
      splitOnChar '\t' (jsTrim line) =
        [seqid, source, ftype, startTok, endTok, scoreTok, strandTok,
          phaseTok, attrs] →
      ((parseGFF3Line line n = .error .coordinateType) ↔
        (jsParseInt startTok = none ∨ jsParseInt endTok = none)) ∧
      (∀ s e : Int, jsParseInt startTok = some s → jsParseInt endTok = some e →
        ((parseGFF3Line line n = .error (.coordinateOrder s e)) ↔ s > e))) ∧
    (∀ (line : List Char) (n : Nat) (f : Feature),
      parseGFF3Line line n = .ok (some f) → f.start ≤ f.endPos) := by
  constructor
  · intro line n seqid source ftype startTok endTok scoreTok strandTok
      phaseTok attrs h1 h2 h3
    rw [parseGFF3Line_eq_parseColumns line n seqid source ftype startTok
      endTok scoreTok strandTok phaseTok attrs h1 h2 h3]
    exact parseColumns_coordinate_spec startTok endTok seqid source ftype
      scoreTok strandTok phaseTok attrs n
  · exact parseGFF3Line_start_le_end

/-- Witness for the amended C5 theorem at concrete inputs: a
non-numeric start token raises `CoordinateTypeError`, and a start
greater than the end raises `CoordinateOrderError`. -/
theorem coordinate_error_classification_witness :
    parseGFF3Line (lc "chr1\tsrc\tgene\tx\t10\t.\t+\t.\tID=a") 1 =
      .error .coordinateType ∧
    parseGFF3Line (lc "chr1\tsrc\tgene\t9\t5\t.\t+\t.\tID=a") 1 =
      .error (.coordinateOrder 9 5) := by
  constructor
  · exact ((coordinate_error_classification.1
      (lc "chr1\tsrc\tgene\tx\t10\t.\t+\t.\tID=a") 1 (lc "chr1") (lc "src")
      (lc "gene") (lc "x") (lc "10") (lc ".") (lc "+") (lc ".") (lc "ID=a")
      (by decide) (by decide) (by decide)).1).mpr (Or.inl (by decide))
  · exact ((coordinate_error_classification.1
      (lc "chr1\tsrc\tgene\t9\t5\t.\t+\t.\tID=a") 1 (lc "chr1") (lc "src")
      (lc "gene") (lc "9") (lc "5") (lc ".") (lc "+") (lc ".") (lc "ID=a")
      (by decide) (by decide) (by decide)).2 9 5 (by decide)
      (by decide)).mpr (by decide)

/-! ## Claim C9 -/

/-- C9: an otherwise valid nine-column line whose attribute value holds
the invalid percent escape `%ZZ` makes attribute decoding throw
(`uriError`, a failure class outside the four documented per-line
classes), so in a file the whole line becomes one entry of `errors`
and yields no feature, while an attribute segment lacking `=` (here
`foo`) is silently skipped without any error. -/
theorem invalid_escape_line_error :
    parseGFF3Line (lc "chr1\tsrc\tgene\t1\t10\t.\t+\t.\tName=%ZZ") 11 =
      .error .uriError ∧
    (parseGFF3
        (lc ("\n\n\n\n\n\n\n\n\n" ++
          "c\ts\tgene\t1\t9\t.\t+\t.\tID=g1\n" ++
          "c\ts\tgene\t1\t9\t.\t+\t.\tName=%ZZ"))).map
      (fun r => (r.errors, r.features.length)) =
      .ok ([{ lineNumber := 11, message := .uriError
              line := lc "c\ts\tgene\t1\t9\t.\t+\t.\tName=%ZZ" }], 1) ∧
    parseGFF3Line (lc "chr1\tsrc\tgene\t1\t10\t.\t+\t.\tfoo;ID=x") 1 =
      .ok (some
        { seqid := lc "chr1", source := lc "src", type := lc "gene"
          start := 1, endPos := 10, score := none, strand := lc "+"
          phase := none, attributes := [(lc "ID", lc "x")]
          lineNumber := 1 }) := by
  refine ⟨by decide, by decide, by decide⟩

/-! ## Claim C4 -/

/-- Negating a predicate turns `any` into the negation of `all`. -/
theorem any_not_eq_not_all {α : Type} (l : List α) (h : α → Bool) :
    (l.any fun x => !h x) = !l.all h := by
  induction l with
  | nil => rfl
  | cons a t ih => simp [List.any_cons, List.all_cons, ih, Bool.not_and]

/-- The source's overlap test is the negation of the spec-side lane
test. -/
theorem hasOverlap_eq_not_fits (t : List FTree) (f : FTree) :
    hasOverlap t f = !specLaneFits t f := by
  unfold hasOverlap specLaneFits
  rw [← any_not_eq_not_all]
  congr 1
  funext b
  by_cases hx : b.data.endPos < f.data.start <;>
    by_cases hy : f.data.endPos < b.data.start <;> simp [hx, hy, GT.gt]

/-- Source placement agrees with the spec-side placement. -/
theorem placeFeature_eq_spec (tracks : List (List FTree)) (f : FTree) :
    placeFeature tracks f = specPlaceFeature tracks f := by
  induction tracks with
  | nil => rfl
  | cons track rest ih =>
    unfold placeFeature specPlaceFeature
    rw [hasOverlap_eq_not_fits]
    cases hfits : specLaneFits track f <;> simp [ih]

/-- A track that fails the overlap test is coordinate-disjoint from
the candidate feature. -/
theorem not_hasOverlap_forall {track : List FTree} {f : FTree}
    (h : ¬ hasOverlap track f = true) :
    ∀ a ∈ track,
      a.data.endPos < f.data.start ∨ f.data.endPos < a.data.start := by
  intro a ha
  by_contra hcon
  apply h
  unfold hasOverlap
  rw [List.any_eq_true]
  exact ⟨a, ha, by simpa using hcon⟩

/-- Placement preserves the per-track pairwise non-overlap invariant. -/
theorem pairwise_placeFeature (f : FTree) (tracks : List (List FTree))
    (hinv : ∀ t ∈ tracks, t.Pairwise (fun a b =>
      a.data.endPos < b.data.start ∨ b.data.endPos < a.data.start)) :
    ∀ t ∈ placeFeature tracks f, t.Pairwise (fun a b =>
      a.data.endPos < b.data.start ∨ b.data.endPos < a.data.start) := by
  induction tracks with
  | nil =>
    intro t ht
    simp only [placeFeature, List.mem_singleton] at ht
    subst ht
    exact List.pairwise_singleton _ _
  | cons track rest ih =>
    intro t ht
    unfold placeFeature at ht
    by_cases hov : hasOverlap track f = true
    · rw [if_pos hov] at ht
      rcases List.mem_cons.mp ht with h | h
      · exact h ▸ hinv track (List.mem_cons_self _ _)
      · exact ih (fun u hu => hinv u (List.mem_cons_of_mem _ hu)) t h
    · rw [if_neg hov] at ht
      rcases List.mem_cons.mp ht with h | h
      · subst h
        rw [List.pairwise_append]
        refine ⟨hinv track (List.mem_cons_self _ _),
          List.pairwise_singleton _ _, ?_⟩
        intro a ha b hb
        rw [List.mem_singleton] at hb
        subst hb
        exact not_hasOverlap_forall hov a ha
      · exact hinv t (List.mem_cons_of_mem _ h)

/-- C4: every lane produced by `organizeIntoTracks` is pairwise
non-overlapping — for distinct `a, b` in one lane, `a.end < b.start`
or `b.end < a.start` — and the whole assignment coincides with the
spec-side greedy first-fit (each feature goes, in file order, to the
first lane whose contents it does not overlap, a new lane opening only
when none qualifies). -/
theorem organizeIntoTracks_nonoverlap_firstFit :
    (∀ (features : List FTree) (track : List FTree),
      track ∈ organizeIntoTracks features →
      track.Pairwise (fun a b =>
        a.data.endPos < b.data.start ∨ b.data.endPos < a.data.start)) ∧
    (∀ features : List FTree,
      organizeIntoTracks features = specOrganizeIntoTracks features) := by
  constructor
  · intro features
    suffices h : ∀ (tracks : List (List FTree)),
        (∀ t ∈ tracks, t.Pairwise (fun a b =>
          a.data.endPos < b.data.start ∨ b.data.endPos < a.data.start)) →
        ∀ t ∈ features.foldl placeFeature tracks, t.Pairwise (fun a b =>
          a.data.endPos < b.data.start ∨ b.data.endPos < a.data.start) by
      intro track ht
      exact h [] (by simp) track ht
    induction features with
    | nil => intro tracks hinv t ht; exact hinv t ht
    | cons g rest ih =>
      intro tracks hinv t ht
      exact ih (placeFeature tracks g) (pairwise_placeFeature g tracks hinv) t ht
  · intro features
    unfold organizeIntoTracks specOrganizeIntoTracks
    rw [show placeFeature = specPlaceFeature from
      funext (fun t => funext (fun f => placeFeature_eq_spec t f))]

/-- Witness for C4 at a concrete input: two overlapping genes land in
two lanes, and the first lane is pairwise non-overlapping. -/
theorem organizeIntoTracks_nonoverlap_firstFit_witness :
    [sampleTree (lc "gene") 1 10 []] ∈
      organizeIntoTracks
        [sampleTree (lc "gene") 1 10 [], sampleTree (lc "gene") 5 20 []] ∧
    ([sampleTree (lc "gene") 1 10 []].Pairwise (fun a b =>
      a.data.endPos < b.data.start ∨ b.data.endPos < a.data.start)) ∧
    organizeIntoTracks
        [sampleTree (lc "gene") 1 10 [], sampleTree (lc "gene") 5 20 []] =
      specOrganizeIntoTracks
        [sampleTree (lc "gene") 1 10 [], sampleTree (lc "gene") 5 20 []] :=
  ⟨by decide,
   organizeIntoTracks_nonoverlap_firstFit.1
     [sampleTree (lc "gene") 1 10 [], sampleTree (lc "gene") 5 20 []]
     [sampleTree (lc "gene") 1 10 []] (by decide),
   organizeIntoTracks_nonoverlap_firstFit.2
     [sampleTree (lc "gene") 1 10 [], sampleTree (lc "gene") 5 20 []]⟩

/-! ## Claim C1 -/

/-- Splitting on line breaks always yields at least one piece. -/
theorem splitLinesJS_ne_nil (s : List Char) : splitLinesJS s ≠ [] := by
  induction s using splitLinesJS.induct <;>
    (unfold splitLinesJS; repeat' split) <;> simp_all

/-- C1: for every non-empty input buffer, `parseGFF3` raises the
aggregate malformed-file error exactly when the number of failed lines
strictly exceeds 10% of the total line count (the boundary is
exclusive, so a file with exactly 10% failed lines parses); the raised
error carries the first five per-line errors plus the count of the
remainder, and below the threshold parsing succeeds with all failed
lines reported non-fatally in `errors`. -/
theorem parseGFF3_malformed_threshold :
    ∀ fileContent : List Char, fileContent ≠ [] →
      (10 * (parseLinesLoop (splitLinesJS fileContent) 0).2.length >
          (splitLinesJS fileContent).length →
        parseGFF3 fileContent = .error (.malformed
          ((parseLinesLoop (splitLinesJS fileContent) 0).2.take 5)
          (if (parseLinesLoop (splitLinesJS fileContent) 0).2.length > 5 then
            (parseLinesLoop (splitLinesJS fileContent) 0).2.length - 5
          else 0))) ∧
      (10 * (parseLinesLoop (splitLinesJS fileContent) 0).2.length ≤
          (splitLinesJS fileContent).length →
        ∃ r, parseGFF3 fileContent = .ok r ∧
          r.errors = (parseLinesLoop (splitLinesJS fileContent) 0).2 ∧
          r.statsErrors =
            (parseLinesLoop (splitLinesJS fileContent) 0).2.length) := by
  intro fc hne
  have hL : 0 < (splitLinesJS fc).length :=
    List.length_pos.mpr (splitLinesJS_ne_nil fc)
  constructor
  · intro hgt
    unfold parseGFF3
    rw [if_neg hne]
    dsimp only
    rw [if_pos ⟨by omega, hgt⟩]
  · intro hle
    unfold parseGFF3
    rw [if_neg hne]
    dsimp only
    rw [if_neg (by rintro ⟨h1, h2⟩; omega)]
    exact ⟨_, rfl, rfl, rfl⟩

/-- Witness for C1: a ten-line file with exactly one malformed line
(exactly 10%) parses successfully, while a six-line file with one
malformed line (more than 10%) raises the aggregate error. -/
theorem parseGFF3_malformed_threshold_witness :
    (∃ r, parseGFF3 (lc "\n\n\n\n\n\n\n\n\nbad") = .ok r ∧
      r.errors =
        (parseLinesLoop (splitLinesJS (lc "\n\n\n\n\n\n\n\n\nbad")) 0).2 ∧
      r.statsErrors =
        (parseLinesLoop
          (splitLinesJS (lc "\n\n\n\n\n\n\n\n\nbad")) 0).2.length) ∧
    parseGFF3 (lc "\n\n\n\n\nbad") = .error (.malformed
      ((parseLinesLoop (splitLinesJS (lc "\n\n\n\n\nbad")) 0).2.take 5)
      (if (parseLinesLoop
            (splitLinesJS (lc "\n\n\n\n\nbad")) 0).2.length > 5 then
        (parseLinesLoop (splitLinesJS (lc "\n\n\n\n\nbad")) 0).2.length - 5
      else 0)) :=
  ⟨(parseGFF3_malformed_threshold _ (by decide)).2 (by decide),
   (parseGFF3_malformed_threshold _ (by decide)).1 (by decide)⟩

/-! ## Hierarchy lemmas (claims C2 and C3) -/

/-- The link pass leaves the length of the children table unchanged. -/
theorem linkStep_children_length (fid : List (List Char × Nat))
    (st : LinkState) (p : Nat × Feature) :
    (linkStep fid st p).children.length = st.children.length := by
  unfold linkStep
  by_cases ht : truthy (jsObjGet p.2.attributes (lc "Parent")) <;> simp [ht]
  cases hb : (jsObjGet p.2.attributes (lc "Parent")).bind (jsObjGet fid) <;>
    simp [hb]

/-- The link pass appends the current index to the root list exactly
when the feature resolves to no parent. -/
theorem linkStep_rootFeatures (fid : List (List Char × Nat))
    (st : LinkState) (p : Nat × Feature) :
    (linkStep fid st p).rootFeatures =
      if linkIsRoot fid p then st.rootFeatures ++ [p.1]
      else st.rootFeatures := by
  unfold linkStep linkIsRoot
  by_cases ht : truthy (jsObjGet p.2.attributes (lc "Parent")) <;>
    simp only [ht]
  · cases hb : (jsObjGet p.2.attributes (lc "Parent")).bind (jsObjGet fid) <;>
      simp [hb]
  · simp

/-- The link pass records one `console.warn` exactly when a truthy
`Parent` fails to resolve. -/
theorem linkStep_warnings (fid : List (List Char × Nat))
    (st : LinkState) (p : Nat × Feature) :
    (linkStep fid st p).warnings =
      if linkIsWarn fid p then st.warnings ++ [p.1]
      else st.warnings := by
  unfold linkStep linkIsWarn
  by_cases ht : truthy (jsObjGet p.2.attributes (lc "Parent")) <;>
    simp only [ht]
  · cases hb : (jsObjGet p.2.attributes (lc "Parent")).bind (jsObjGet fid) <;>
      simp [hb]
  · simp

/-- In the root case, the children tables are untouched. -/
theorem linkStep_children_of_root (fid : List (List Char × Nat))
    (st : LinkState) (p : Nat × Feature) (h : linkIsRoot fid p = true) :
    (linkStep fid st p).children = st.children := by
  unfold linkIsRoot at h
  unfold linkStep
  by_cases ht : truthy (jsObjGet p.2.attributes (lc "Parent")) <;>
    simp only [ht]
  · cases hb : (jsObjGet p.2.attributes (lc "Parent")).bind (jsObjGet fid) <;>
      simp_all
  · simp

/-- In the resolved-parent case, the current index is appended to the
resolved parent's children list. -/
theorem linkStep_children_of_child (fid : List (List Char × Nat))
    (st : LinkState) (p : Nat × Feature) (h : linkIsRoot fid p = false) :
    ∃ pid j, jsObjGet p.2.attributes (lc "Parent") = some pid ∧
      jsObjGet fid pid = some j ∧
      (linkStep fid st p).children =
        st.children.set j (st.children.getD j [] ++ [p.1]) := by
  unfold linkIsRoot at h
  unfold linkStep
  by_cases ht : truthy (jsObjGet p.2.attributes (lc "Parent"))
  · cases hb : (jsObjGet p.2.attributes (lc "Parent")).bind (jsObjGet fid) with
    | none => simp_all
    | some j =>
      rcases Option.bind_eq_some.mp hb with ⟨pid, hpid, hget⟩
      exact ⟨pid, j, hpid, hget, by simp [ht, hb]⟩
  · simp_all

/-- Updating one entry of a list shifts a summed statistic by the
difference at that entry. -/
theorem map_sum_set (l : List (List Nat)) (j : Nat) (x : List Nat)
    (g : List Nat → Nat) (hj : j < l.length) :
    ((l.set j x).map g).sum + g (l.getD j []) = (l.map g).sum + g x := by
  induction l generalizing j with
  | nil => cases hj
  | cons a rest ih =>
    cases j with
    | zero => simp [List.set, List.getD]; omega
    | succ k =>
      have hk : k < rest.length := by simpa using hj
      have := ih k hk
      simp only [List.set, List.map_cons, List.sum_cons, List.getD_cons_succ]
      omega

/-- Counting in a singleton list. -/
theorem count_singleton_ite (a i : Nat) :
    ([a] : List Nat).count i = if a = i then 1 else 0 := by
  by_cases h : a = i <;> simp [List.count_cons, h]

/-- One link step adds exactly one occurrence — of its own index — to
the combined root/children occurrence count. -/
theorem occ_linkStep (fid : List (List Char × Nat)) (st : LinkState)
    (p : Nat × Feature) (i : Nat)
    (hfid : ∀ pid j, jsObjGet fid pid = some j → j < st.children.length) :
    occurrenceCount (linkStep fid st p).rootFeatures
        (linkStep fid st p).children i =
      occurrenceCount st.rootFeatures st.children i +
        (if p.1 = i then 1 else 0) := by
  unfold occurrenceCount
  rw [linkStep_rootFeatures]
  cases hroot : linkIsRoot fid p with
  | true =>
    rw [if_pos rfl, linkStep_children_of_root fid st p hroot,
      List.count_append, count_singleton_ite]
    omega
  | false =>
    rw [if_neg (by simp)]
    rcases linkStep_children_of_child fid st p hroot with
      ⟨pid, j, hpid, hget, hch⟩
    rw [hch]
    have hj : j < st.children.length := hfid pid j hget
    have hset := map_sum_set st.children j (st.children.getD j [] ++ [p.1])
      (fun l => l.count i) hj
    have hc : (st.children.getD j [] ++ [p.1]).count i =
        (st.children.getD j []).count i + (if p.1 = i then 1 else 0) := by
      rw [List.count_append, count_singleton_ite]
    simp only at hset hc
    omega

/-- Folding the link pass over a list of indexed features adds one
occurrence per processed pair whose index is `i`. -/
theorem occ_foldl (fid : List (List Char × Nat)) :
    ∀ (L : List (Nat × Feature)) (st : LinkState) (i : Nat),
      (∀ pid j, jsObjGet fid pid = some j → j < st.children.length) →
      occurrenceCount (L.foldl (linkStep fid) st).rootFeatures
          (L.foldl (linkStep fid) st).children i =
        occurrenceCount st.rootFeatures st.children i +
          L.countP (fun p => p.1 == i) := by
  intro L
  induction L with
  | nil => intro st i h; simp
  | cons p rest ih =>
    intro st i h
    simp only [List.foldl_cons, List.countP_cons]
    rw [ih (linkStep fid st p) i
      (by rw [linkStep_children_length]; exact h)]
    rw [occ_linkStep fid st p i h]
    by_cases hpi : p.1 = i <;> simp [hpi] <;> omega

/-- `jsObjSet` preserves a property of all stored values when the new
value has it. -/
theorem jsObjSet_values {β : Type} (m : List (List Char × β)) (k : List Char)
    (v : β) (P : β → Prop) (hm : ∀ kv ∈ m, P kv.2) (hv : P v) :
    ∀ kv ∈ jsObjSet m k v, P kv.2 := by
  intro kv hkv
  unfold jsObjSet at hkv
  by_cases h : m.any (fun p => p.1 = k)
  · rw [if_pos h] at hkv
    rcases List.mem_map.mp hkv with ⟨q, hq, hqe⟩
    by_cases hqk : q.1 = k
    · rw [if_pos hqk] at hqe
      rw [← hqe]
      exact hv
    · rw [if_neg hqk] at hqe
      rw [← hqe]
      exact hm q hq
  · rw [if_neg h] at hkv
    rcases List.mem_append.mp hkv with h1 | h1
    · exact hm kv h1
    · rw [List.mem_singleton] at h1
      subst h1
      exact hv

/-- A successful `jsObjGet` returns a stored value. -/
theorem jsObjGet_mem {β : Type} (m : List (List Char × β)) (k : List Char)
    (v : β) (h : jsObjGet m k = some v) : ∃ kv ∈ m, kv.2 = v := by
  unfold jsObjGet at h
  cases hf : m.find? (fun p => p.1 = k) with
  | none => rw [hf] at h; cases h
  | some q =>
    rw [hf] at h
    injection h with h'
    exact ⟨q, List.mem_of_find?_eq_some hf, h'⟩

/-- Every index stored by the first pass is a valid position of the
feature list. -/
theorem indexPass_lt (features : List Feature) :
    ∀ pid j, jsObjGet (indexPass features) pid = some j →
      j < features.length := by
  suffices h : ∀ kv ∈ indexPass features, kv.2 < features.length by
    intro pid j hget
    rcases jsObjGet_mem _ _ _ hget with ⟨kv, hkv, he⟩
    exact he ▸ h kv hkv
  unfold indexPass
  have hgen : ∀ (L : List (Nat × Feature)) (m : List (List Char × Nat)),
      (∀ p ∈ L, p.1 < features.length) →
      (∀ kv ∈ m, kv.2 < features.length) →
      ∀ kv ∈ L.foldl (fun featureById p =>
        match jsObjGet p.2.attributes (lc "ID") with
        | some idv =>
          if idv ≠ [] then jsObjSet featureById idv p.1 else featureById
        | none => featureById) m, kv.2 < features.length := by
    intro L
    induction L with
    | nil => intro m _ hm kv hkv; exact hm kv hkv
    | cons p rest ih =>
      intro m hL hm kv hkv
      simp only [List.foldl_cons] at hkv
      refine ih _ (fun q hq => hL q (List.mem_cons_of_mem _ hq)) ?_ kv hkv
      cases hid : jsObjGet p.2.attributes (lc "ID") with
      | none => simpa [hid] using hm
      | some idv =>
        by_cases hne : idv ≠ []
        · simp only [hid]
          rw [if_pos hne]
          exact jsObjSet_values m idv p.1 (fun x => x < features.length) hm
            (hL p (List.mem_cons_self _ _))
        · simpa [hid, hne] using hm
  refine hgen features.enum [] ?_ (by simp)
  intro p hp
  rw [List.mem_enum_iff_getElem?] at hp
  exact (List.getElem?_eq_some_iff.mp hp).1

/-- Occurrences of `i` in `range n`. -/
theorem count_range (i n : Nat) :
    (List.range n).count i = if i < n then 1 else 0 := by
  induction n with
  | zero => simp
  | succ m ih =>
    rw [List.range_succ, List.count_append, ih]
    have : ([m] : List Nat).count i = if m = i then 1 else 0 := by
      by_cases h : m = i <;> simp [List.count_cons, h]
    rw [this]
    split_ifs <;> omega

/-- Each valid index appears exactly once as a key of the enumerated
feature list. -/
theorem enum_countP_fst (features : List Feature) (i : Nat) :
    features.enum.countP (fun p => p.1 == i) =
      if i < features.length then 1 else 0 := by
  have h1 : features.enum.countP (fun p => p.1 == i) =
      (features.enum.map Prod.fst).countP (· == i) := by
    rw [List.countP_map]
    rfl
  rw [h1, List.enum_map_fst, ← List.count, count_range]

/-! ## Claim C3 -/

/-- C3 counterexample: for the single feature whose `Parent` names its
own `ID`, `buildHierarchy` leaves `rootFeatures` empty and stores the
feature in its own children list, so the traversal of the root forest
visits nothing at all — the feature (index 0 of a one-feature list) is
reachable from neither `rootFeatures` nor any root-reachable ancestor,
refuting the claim for cyclic `Parent` references. -/
theorem cycle_unreachable_from_roots :
    (buildHierarchy [selfParentFeature]).rootFeatures = [] ∧
    (buildHierarchy [selfParentFeature]).children = [[0]] ∧
    traverseFrom (buildHierarchy [selfParentFeature]).children
      ([selfParentFeature] : List Feature).length
      (buildHierarchy [selfParentFeature]).rootFeatures = [] ∧
    ([selfParentFeature] : List Feature).length = 1 := by
  refine ⟨by decide, by decide, by decide, by decide⟩

/-- C3 amended: after `buildHierarchy`, every feature index is placed
exactly once across the union of `rootFeatures` and all children lists
(never both, never neither at the placement level); the traversal form
of the invariant holds only for acyclic `Parent` references, and a
`Parent` cycle makes its features unreachable from `rootFeatures`
while still sitting in a children list. -/
theorem hierarchy_occurrence_partition :
    ∀ (features : List Feature) (i : Nat), i < features.length →
      occurrenceCount (buildHierarchy features).rootFeatures
        (buildHierarchy features).children i = 1 := by
  intro features i hi
  unfold buildHierarchy
  dsimp only
  rw [occ_foldl (indexPass features) features.enum _ i
    (by intro pid j h; simpa using indexPass_lt features pid j h)]
  rw [enum_countP_fst, if_pos hi]
  unfold occurrenceCount
  simp [List.count_nil]

/-- Witness for the amended C3 theorem: even for the self-parented
feature, index 0 occurs exactly once across roots and children lists. -/
theorem hierarchy_occurrence_partition_witness :
    occurrenceCount (buildHierarchy [selfParentFeature]).rootFeatures
      (buildHierarchy [selfParentFeature]).children 0 = 1 :=
  hierarchy_occurrence_partition [selfParentFeature] 0 (by decide)

/-! ## Claim C2 -/

/-- C2 counterexample: for a file whose only feature carries
`Parent=missingID`, the parse succeeds with an *empty* `errors` list —
the unresolved-parent warning goes to `console.warn` only (recorded
here in `warnings`), never into the result's `errors`, refuting the
claimed `UnresolvedParentWarning` entry in `errors`; the feature does
appear in `rootFeatures`. -/
theorem unresolved_parent_no_error_entry :
    (parseGFF3
        (lc "chr1\tsrc\tgene\t1\t10\t.\t+\t.\tID=g1;Parent=missingID")).map
      (fun r => (r.errors, r.rootFeatures, r.warnings)) =
      .ok ([], [0], [0]) := by
  decide

/-- Per-step root counting over the link fold. -/
theorem roots_count_foldl (fid : List (List Char × Nat)) :
    ∀ (L : List (Nat × Feature)) (st : LinkState) (i : Nat),
      ((L.foldl (linkStep fid) st).rootFeatures).count i =
        st.rootFeatures.count i +
          L.countP (fun p => p.1 == i && linkIsRoot fid p) := by
  intro L
  induction L with
  | nil => intro st i; simp
  | cons p rest ih =>
    intro st i
    simp only [List.foldl_cons, List.countP_cons]
    rw [ih (linkStep fid st p) i, linkStep_rootFeatures]
    by_cases hr : linkIsRoot fid p <;> by_cases hpi : p.1 = i <;>
      simp [hr, hpi, List.count_append, List.count_cons] <;> omega

/-- Per-step warning counting over the link fold. -/
theorem warnings_count_foldl (fid : List (List Char × Nat)) :
    ∀ (L : List (Nat × Feature)) (st : LinkState) (i : Nat),
      ((L.foldl (linkStep fid) st).warnings).count i =
        st.warnings.count i +
          L.countP (fun p => p.1 == i && linkIsWarn fid p) := by
  intro L
  induction L with
  | nil => intro st i; simp
  | cons p rest ih =>
    intro st i
    simp only [List.foldl_cons, List.countP_cons]
    rw [ih (linkStep fid st p) i, linkStep_warnings]
    by_cases hr : linkIsWarn fid p <;> by_cases hpi : p.1 = i <;>
      simp [hr, hpi, List.count_append, List.count_cons] <;> omega

/-- When the keys of an indexed list are distinct, a conjunction of
key-match and a predicate counts exactly the predicate's value at the
unique entry with that key. -/
theorem countP_key_unique {α : Type} (B : Nat × α → Bool) :
    ∀ (L : List (Nat × α)) (i : Nat) (f : α),
      (L.map Prod.fst).Nodup → (i, f) ∈ L →
      L.countP (fun p => p.1 == i && B p) = if B (i, f) then 1 else 0 := by
  intro L
  induction L with
  | nil => intro i f _ h; cases h
  | cons q rest ih =>
    intro i f hnd hmem
    rw [List.countP_cons]
    rw [List.map_cons] at hnd
    have hnd' := List.nodup_cons.mp hnd
    rcases List.mem_cons.mp hmem with he | hr
    · have hq : q = (i, f) := he.symm
      subst hq
      have hzero : rest.countP (fun p => p.1 == i && B p) = 0 := by
        rw [List.countP_eq_zero]
        intro p hp
        have hne : p.1 ≠ i := by
          intro hcon
          exact hnd'.1 (by
            rw [← hcon]
            exact List.mem_map.mpr ⟨p, hp, rfl⟩)
        simp [hne]
      rw [hzero]
      simp
    · have hq : q.1 ≠ i := by
        intro hcon
        exact hnd'.1 (by
          rw [hcon]
          exact List.mem_map.mpr ⟨(i, f), hr, rfl⟩)
      rw [ih i f hnd'.2 hr]
      simp [hq]

/-- C2 amended: a feature whose truthy `Parent` attribute resolves to
no indexed `ID` is appended to `rootFeatures` exactly once and
produces exactly one `console.warn` record; the result's `errors` list
receives no entry for it (shown at a concrete input by the
counterexample theorem). -/
theorem unresolved_parent_root_and_warning :
    ∀ (features : List Feature) (i : Nat) (f : Feature) (pid : List Char),
      features[i]? = some f →
      jsObjGet f.attributes (lc "Parent") = some pid →
      pid ≠ [] →
      jsObjGet (indexPass features) pid = none →
      (buildHierarchy features).rootFeatures.count i = 1 ∧
      (buildHierarchy features).warnings.count i = 1 := by
  intro features i f pid hget hpar hne hmiss
  have hmem : (i, f) ∈ features.enum :=
    List.mem_enum_iff_getElem?.mpr hget
  have hnd : (features.enum.map Prod.fst).Nodup := by
    rw [List.enum_map_fst]
    exact List.nodup_range _
  have hroot : linkIsRoot (indexPass features) (i, f) = true := by
    unfold linkIsRoot
    simp [hpar, hmiss]
  have hwarn : linkIsWarn (indexPass features) (i, f) = true := by
    unfold linkIsWarn
    simp [hpar, hne, hmiss, truthy]
  unfold buildHierarchy
  dsimp only
  constructor
  · rw [roots_count_foldl, countP_key_unique _ features.enum i f hnd hmem,
      hroot]
    simp
  · rw [warnings_count_foldl, countP_key_unique _ features.enum i f hnd hmem,
      hwarn]
    simp

/-- Witness for the amended C2 theorem at the concrete orphan
feature. -/
theorem unresolved_parent_root_and_warning_witness :
    (buildHierarchy [orphanFeature]).rootFeatures.count 0 = 1 ∧
    (buildHierarchy [orphanFeature]).warnings.count 0 = 1 :=
  unresolved_parent_root_and_warning [orphanFeature] 0 orphanFeature
    (lc "missingID") (by decide) (by decide) (by decide) (by decide)

/-! ## Render-pipeline lemmas (claims C6 and C7) -/

/-- A root outside the padded window leaves the accumulator alone. -/
theorem updateFeatureStep_skip (sc : LinearScale)
    (surfaceWidth trackHeight : ℚ) (acc : List Prim × Nat) (f : FTree)
    (h : inPaddedWindow sc surfaceWidth f = false) :
    updateFeatureStep sc surfaceWidth trackHeight acc f = acc := by
  unfold updateFeatureStep
  dsimp only
  unfold inPaddedWindow at h
  dsimp only at h
  rw [decide_eq_false_iff_not, not_not] at h
  by_cases hc : acc.2 ≥ maxFeaturesToRender
  · rw [if_pos hc]
  · rw [if_neg hc, if_pos h]

/-- Culled roots can be dropped from a track without changing the
fold. -/
theorem foldl_track_filter (sc : LinearScale)
    (surfaceWidth trackHeight : ℚ) :
    ∀ (track : List FTree) (acc : List Prim × Nat),
      track.foldl (updateFeatureStep sc surfaceWidth trackHeight) acc =
        (track.filter (inPaddedWindow sc surfaceWidth)).foldl
          (updateFeatureStep sc surfaceWidth trackHeight) acc := by
  intro track
  induction track with
  | nil => intro acc; rfl
  | cons f rest ih =>
    intro acc
    cases hf : inPaddedWindow sc surfaceWidth f with
    | true => simp only [List.foldl_cons, List.filter_cons_of_pos hf, ih]
    | false =>
      rw [List.foldl_cons,
        updateFeatureStep_skip sc surfaceWidth trackHeight acc f hf, ih,
        show (f :: rest).filter (inPaddedWindow sc surfaceWidth) =
          rest.filter (inPaddedWindow sc surfaceWidth) from by
            simp [List.filter_cons, hf]]

/-- Dropping all culled roots from every track leaves the redraw
unchanged. -/
theorem updateFeatures_filter_eq (sc : LinearScale)
    (surfaceWidth trackHeight : ℚ) (tracks : List (List FTree)) :
    updateFeatures sc surfaceWidth trackHeight tracks =
      updateFeatures sc surfaceWidth trackHeight
        (tracks.map (fun tr =>
          tr.filter (inPaddedWindow sc surfaceWidth))) := by
  unfold updateFeatures
  suffices h : ∀ (ts : List (List FTree)) (acc : List Prim × Nat),
      ts.foldl (updateTrackStep sc surfaceWidth trackHeight) acc =
        (ts.map (fun tr =>
          tr.filter (inPaddedWindow sc surfaceWidth))).foldl
          (updateTrackStep sc surfaceWidth trackHeight) acc from
    h tracks ([], 0)
  intro ts
  induction ts with
  | nil => intro acc; rfl
  | cons tr rest ih =>
    intro acc
    simp only [List.map_cons, List.foldl_cons, ih]
    congr 1
    unfold updateTrackStep
    by_cases hc : acc.2 ≥ maxFeaturesToRender
    · rw [if_pos hc, if_pos hc]
    · rw [if_neg hc, if_neg hc, foldl_track_filter]

/-- A feature narrower than one pixel draws nothing at all. -/
theorem renderFeature_subpixel (sc : LinearScale) (surfaceWidth height : ℚ)
    (d : Feature) (cs : List FTree)
    (h : sc.applyTo d.endPos - sc.applyTo d.start < 1) :
    renderFeature sc surfaceWidth height (.node d cs) = [] := by
  unfold renderFeature
  rw [if_pos h]

/-- Any exon or CDS rect emitted by `renderMRNA` comes from a child
inside the *unpadded* window with at least half-pixel width. -/
theorem renderMRNA_rect_mem (sc : LinearScale) (surfaceWidth : ℚ)
    (cs : List FTree) (e : Feature)
    (h : Prim.exonRect e ∈ renderMRNA sc surfaceWidth cs ∨
      Prim.cdsRect e ∈ renderMRNA sc surfaceWidth cs) :
    ¬((e.endPos : ℚ) < sc.invert 0 ∨
      (e.start : ℚ) > sc.invert surfaceWidth) ∧
    ¬(sc.applyTo e.endPos - sc.applyTo e.start < 1 / 2) := by
  unfold renderMRNA at h
  rcases h with h | h
  · simp only [List.mem_append, List.mem_filterMap] at h
    rcases h with (⟨p, hp, he⟩ | ⟨c, hc, he⟩) | ⟨c, hc, he⟩
    · split_ifs at he
      simp at he
    · split_ifs at he with h1 h2
      have hde : c.data = e := Prim.exonRect.inj (Option.some.inj he)
      subst hde
      exact ⟨h1, h2⟩
    · split_ifs at he with h1 h2
      simp at he
  · simp only [List.mem_append, List.mem_filterMap] at h
    rcases h with (⟨p, hp, he⟩ | ⟨c, hc, he⟩) | ⟨c, hc, he⟩
    · split_ifs at he
      simp at he
    · split_ifs at he with h1 h2
      simp at he
    · split_ifs at he with h1 h2
      have hde : c.data = e := Prim.cdsRect.inj (Option.some.inj he)
      subst hde
      exact ⟨h1, h2⟩

/-- Unfolding of the padded-window test. -/
theorem inPaddedWindow_iff (sc : LinearScale) (w : ℚ) (f : FTree) :
    inPaddedWindow sc w f = true ↔
      ¬((f.data.endPos : ℚ) <
          sc.invert 0 - (sc.invert w - sc.invert 0) * (1 / 10) ∨
        (f.data.start : ℚ) >
          sc.invert w + (sc.invert w - sc.invert 0) * (1 / 10)) := by
  unfold inPaddedWindow
  dsimp only
  exact decide_eq_true_iff

/-- One root step advances `renderedCount` to the capped count of
eligible roots seen so far. -/
theorem updateFeatureStep_count (sc : LinearScale) (w th : ℚ)
    (acc : List Prim × Nat) (f : FTree) (h : acc.2 ≤ maxFeaturesToRender) :
    (updateFeatureStep sc w th acc f).2 =
      min maxFeaturesToRender
        (acc.2 + if inPaddedWindow sc w f then 1 else 0) := by
  unfold updateFeatureStep
  dsimp only
  by_cases hc : acc.2 ≥ maxFeaturesToRender
  · rw [if_pos hc]
    have he : acc.2 = maxFeaturesToRender := le_antisymm h hc
    by_cases hin : inPaddedWindow sc w f <;> simp [hin] <;> omega
  · rw [if_neg hc]
    cases hin : inPaddedWindow sc w f with
    | false =>
      unfold inPaddedWindow at hin
      dsimp only at hin
      rw [decide_eq_false_iff_not, not_not] at hin
      rw [if_pos hin]
      simp
      omega
    | true =>
      have hcond := (inPaddedWindow_iff sc w f).mp hin
      rw [if_neg hcond]
      simp
      omega

/-- Folding over one track saturates `renderedCount` at the cap. -/
theorem foldl_track_count (sc : LinearScale) (w th : ℚ) :
    ∀ (track : List FTree) (acc : List Prim × Nat),
      acc.2 ≤ maxFeaturesToRender →
      (track.foldl (updateFeatureStep sc w th) acc).2 =
        min maxFeaturesToRender
          (acc.2 + track.countP (inPaddedWindow sc w)) := by
  intro track
  induction track with
  | nil =>
    intro acc h
    simp only [List.foldl_nil, List.countP_nil]
    omega
  | cons f rest ih =>
    intro acc h
    rw [List.foldl_cons]
    have hstep := updateFeatureStep_count sc w th acc f h
    have hle : (updateFeatureStep sc w th acc f).2 ≤ maxFeaturesToRender := by
      rw [hstep]; omega
    rw [ih _ hle, hstep, List.countP_cons]
    by_cases hin : inPaddedWindow sc w f <;> simp [hin] <;> omega

/-- The track-level guard preserves the same saturated count. -/
theorem updateTrackStep_count (sc : LinearScale) (w th : ℚ)
    (acc : List Prim × Nat) (track : List FTree)
    (h : acc.2 ≤ maxFeaturesToRender) :
    (updateTrackStep sc w th acc track).2 =
      min maxFeaturesToRender
        (acc.2 + track.countP (inPaddedWindow sc w)) := by
  unfold updateTrackStep
  by_cases hc : acc.2 ≥ maxFeaturesToRender
  · rw [if_pos hc]
    have : acc.2 = maxFeaturesToRender := le_antisymm h hc
    omega
  · rw [if_neg hc]
    exact foldl_track_count sc w th track acc h

/-- The children loop of `renderGene` concatenates the children's
primitive lists in order. -/
theorem renderChildren_eq_flatten (sc : LinearScale) (w h : ℚ) :
    ∀ ts : List FTree,
      renderChildren sc w h ts =
        (ts.map (renderFeature sc w h)).flatten := by
  intro ts
  induction ts with
  | nil => simp [renderChildren]
  | cons t rest ih => simp [renderChildren, ih]

/-- Flattening singleton blocks is a plain map. -/
theorem flatten_map_singleton {α β : Type} (g : α → β) :
    ∀ l : List α, (l.map (fun x => [g x])).flatten = l.map g := by
  intro l
  induction l with
  | nil => rfl
  | cons a rest ih => simp [ih]

/-- Under the identity scale, a unit-width exon child renders as
exactly one rect, at any height. -/
theorem renderFeature_unit_exon (w h : ℚ) (k : Nat) :
    renderFeature ⟨1, 0⟩ w h
        (sampleTree (lc "exon") (2 * (k : Int)) (2 * (k : Int) + 1) []) =
      [.exonRect (sampleFeature (lc "exon") (2 * (k : Int))
        (2 * (k : Int) + 1))] := by
  unfold sampleTree sampleFeature renderFeature LinearScale.applyTo
  dsimp only
  rw [if_neg (by push_cast; norm_num)]
  rw [if_neg (by decide), if_neg (by decide), if_pos (by decide)]
  rfl

/-! ## Claim C6 -/

/-- C6 counterexample: with the identity scale on a 100-unit surface
(window `[0,100]`, padding 10), the one-width-unit gene at `[10,10]`
lies inside the padded window and the cap is far from reached, yet it
produces no draw primitive (its screen width is below one pixel);
and the exon child at `[300,350]` of the on-screen gene `[0,50]` lies
entirely beyond `v1 + p = 110`, yet it does produce a rect primitive
(gene children are not position-culled).  Both halves of the claim
fail. -/
theorem culling_claim_fails :
    updateFeatures ⟨1, 0⟩ 100 60
        [[sampleTree (lc "gene") 10 10 []],
         [sampleTree (lc "gene") 0 50 [sampleTree (lc "exon") 300 350 []]]] =
      ([.genePath (sampleFeature (lc "gene") 0 50),
        .exonRect (sampleFeature (lc "exon") 300 350)], 2) ∧
    inPaddedWindow ⟨1, 0⟩ 100 (sampleTree (lc "gene") 10 10 []) = true ∧
    inPaddedWindow ⟨1, 0⟩ 100
      (sampleTree (lc "exon") 300 350 []) = false := by
  refine ⟨?_, ?_, ?_⟩
  · norm_num [updateFeatures, updateTrackStep, updateFeatureStep,
      maxFeaturesToRender, renderFeature, renderChildren, renderMRNA,
      renderExon, renderCDS, LinearScale.invert, LinearScale.applyTo,
      sampleTree, sampleFeature, FTree.data, inPaddedWindow, lc]
    decide
  · norm_num [inPaddedWindow, LinearScale.invert, sampleTree, sampleFeature,
      FTree.data]
  · norm_num [inPaddedWindow, LinearScale.invert, sampleTree, sampleFeature,
      FTree.data]

/-- C6 amended: root features culled by the padded-window test can be
removed without changing the redraw at all (they draw nothing and do
not advance the cap count); a root inside the padded window still
draws nothing when its screen width is below one pixel; and the
exon/CDS rects drawn inside an mRNA are culled against the *unpadded*
window with a half-pixel minimum width — while children of genes are
not position-culled at all (see the counterexample theorem). -/
theorem viewport_culling_behavior :
    (∀ (sc : LinearScale) (surfaceWidth trackHeight : ℚ)
      (tracks : List (List FTree)),
      updateFeatures sc surfaceWidth trackHeight tracks =
        updateFeatures sc surfaceWidth trackHeight
          (tracks.map (fun tr =>
            tr.filter (inPaddedWindow sc surfaceWidth)))) ∧
    (∀ (sc : LinearScale) (surfaceWidth height : ℚ) (d : Feature)
      (cs : List FTree),
      sc.applyTo d.endPos - sc.applyTo d.start < 1 →
      renderFeature sc surfaceWidth height (.node d cs) = []) ∧
    (∀ (sc : LinearScale) (surfaceWidth : ℚ) (cs : List FTree) (e : Feature),
      (Prim.exonRect e ∈ renderMRNA sc surfaceWidth cs ∨
        Prim.cdsRect e ∈ renderMRNA sc surfaceWidth cs) →
      ¬((e.endPos : ℚ) < sc.invert 0 ∨
        (e.start : ℚ) > sc.invert surfaceWidth) ∧
      ¬(sc.applyTo e.endPos - sc.applyTo e.start < 1 / 2)) :=
  ⟨updateFeatures_filter_eq, renderFeature_subpixel, renderMRNA_rect_mem⟩

/-- Witness for the amended C6 theorem at concrete inputs: the
zero-width gene draws nothing, and a rect drawn by `renderMRNA` for an
exon at `[10,20]` under the identity scale is indeed inside the
unpadded window with at least half-pixel width. -/
theorem viewport_culling_behavior_witness :
    renderFeature ⟨1, 0⟩ 100 60
      (.node (sampleFeature (lc "gene") 10 10) []) = [] ∧
    (¬(((sampleFeature (lc "exon") 10 20).endPos : ℚ) <
          (LinearScale.mk 1 0).invert 0 ∨
        ((sampleFeature (lc "exon") 10 20).start : ℚ) >
          (LinearScale.mk 1 0).invert 100) ∧
      ¬((LinearScale.mk 1 0).applyTo (sampleFeature (lc "exon") 10 20).endPos -
          (LinearScale.mk 1 0).applyTo
            (sampleFeature (lc "exon") 10 20).start < 1 / 2)) :=
  ⟨viewport_culling_behavior.2.1 ⟨1, 0⟩ 100 60 (sampleFeature (lc "gene") 10 10)
      [] (by norm_num [sampleFeature, LinearScale.applyTo]),
   viewport_culling_behavior.2.2 ⟨1, 0⟩ 100
      [sampleTree (lc "exon") 10 20 []] (sampleFeature (lc "exon") 10 20)
      (Or.inl (by
        norm_num [renderMRNA, sampleTree, sampleFeature, FTree.data,
          LinearScale.invert, LinearScale.applyTo, lc]))⟩

/-! ## Claim C7 -/

/-- A wide gene with `n` unit-width exon children renders to the gene
path plus one rect per child: `n + 1` primitives. -/
theorem renderFeature_wideGene_length (n : Nat) :
    (renderFeature ⟨1, 0⟩ 100 60 (wideGene n)).length = n + 1 := by
  unfold wideGene
  simp only [renderFeature]
  rw [if_neg (by norm_num [sampleFeature, LinearScale.applyTo]),
    if_pos (show (sampleFeature (lc "gene") 0 20000).type = lc "gene"
      from rfl)]
  rw [List.length_cons, renderChildren_eq_flatten]
  unfold exonRun
  rw [List.map_map]
  simp only [Function.comp_def]
  rw [List.map_congr_left
    (fun k _ => renderFeature_unit_exon 100 ((60 * (3 / 10)) * 2) k)]
  rw [flatten_map_singleton
    (fun (k : Nat) => Prim.exonRect (sampleFeature (lc "exon")
      (2 * (k : Int)) (2 * (k : Int) + 1)))]
  rw [List.length_map, List.length_range]

/-- A single-track redraw of one wide gene draws its primitives and
counts exactly one rendered root feature. -/
theorem updateFeatures_wideGene (n : Nat) :
    updateFeatures ⟨1, 0⟩ 100 60 [[wideGene n]] =
      (renderFeature ⟨1, 0⟩ 100 60 (wideGene n), 1) := by
  unfold updateFeatures
  rw [List.foldl_cons, List.foldl_nil]
  unfold updateTrackStep
  rw [if_neg (by norm_num [maxFeaturesToRender])]
  rw [List.foldl_cons, List.foldl_nil]
  unfold updateFeatureStep
  dsimp only
  rw [if_neg (by norm_num [maxFeaturesToRender])]
  rw [if_neg (by
    norm_num [wideGene, FTree.data, sampleFeature, LinearScale.invert])]
  simp

/-- C7 counterexample: a single root gene with 5001 unit-width exon
children inside the window produces `1 + 5001 = 5002 > 5000` draw
primitives in one redraw while `renderedCount` only reaches 1 — the
hard cap counts root features, not primitives, so the total primitive
count exceeds the cap. -/
theorem primitive_cap_exceeded :
    (updateFeatures ⟨1, 0⟩ 100 60 [[wideGene 5001]]).1.length = 5002 ∧
    (updateFeatures ⟨1, 0⟩ 100 60 [[wideGene 5001]]).2 = 1 ∧
    maxFeaturesToRender = 5000 :=
  ⟨(congrArg (fun p => p.1.length) (updateFeatures_wideGene 5001)).trans
      (renderFeature_wideGene_length 5001),
   congrArg Prod.snd (updateFeatures_wideGene 5001),
   rfl⟩

/-- C7 amended: the cap bounds the number of *root features* rendered
per redraw — `renderedCount` finishes at exactly
`min 5000 (number of roots inside the padded window)`, so once 5000
roots have been rendered all remaining roots of that redraw are
skipped, not queued; primitives drawn for children inside a root's
lane are not counted, and the total primitive count can exceed the
cap (counterexample theorem). -/
theorem render_cap_counts_roots (sc : LinearScale) (w th : ℚ)
    (tracks : List (List FTree)) :
    (updateFeatures sc w th tracks).2 =
      min maxFeaturesToRender (eligibleRoots sc w tracks) := by
  unfold updateFeatures eligibleRoots
  suffices h : ∀ (ts : List (List FTree)) (acc : List Prim × Nat),
      acc.2 ≤ maxFeaturesToRender →
      (ts.foldl (updateTrackStep sc w th) acc).2 =
        min maxFeaturesToRender
          (acc.2 +
            (ts.map (fun tr => tr.countP (inPaddedWindow sc w))).sum) by
    simpa using h tracks ([], 0) (by simp [maxFeaturesToRender])
  intro ts
  induction ts with
  | nil =>
    intro acc h
    simp only [List.foldl_nil, List.map_nil, List.sum_nil]
    omega
  | cons tr rest ih =>
    intro acc h
    rw [List.foldl_cons]
    have hstep := updateTrackStep_count sc w th acc tr h
    have hle : (updateTrackStep sc w th acc tr).2 ≤ maxFeaturesToRender := by
      rw [hstep]; omega
    rw [ih _ hle, hstep]
    simp only [List.map_cons, List.sum_cons]
    omega

/-! ## Claim C8 -/

/-- Under the at-most-one-pending invariant, `clearTimeout` disarms
every armed timer. -/
theorem clearZoomTimeout_all (s : ZoomSim) (h : atMostOnePending s) :
    clearZoomTimeout s.timers s.zoomTimeout = [] := by
  cases hz : s.zoomTimeout with
  | none =>
    have htm : s.timers = [] := by
      cases htm : s.timers with
      | nil => rfl
      | cons t ts =>
        have hmem : t ∈ s.timers := by
          rw [htm]; exact List.mem_cons_self t ts
        have h2 := h.2 t hmem
        rw [hz] at h2
        cases h2
    rw [htm]
    rfl
  | some i =>
    unfold clearZoomTimeout
    dsimp only
    rw [List.filter_eq_nil_iff.mpr]
    intro t ht
    have h2 := h.2 t ht
    rw [hz] at h2
    simp [Option.some.inj h2]

/-- Each event handler transition preserves the at-most-one-pending
invariant. -/
theorem stepEvent_preserves (s : ZoomSim) (e : ZoomEvent)
    (h : atMostOnePending s) : atMostOnePending (stepEvent s e) := by
  cases e with
  | transform now τ =>
    unfold stepEvent onZoom
    dsimp only
    by_cases ht : now - s.lastUpdateTime < throttleInterval
    · rw [if_pos ht]
      rw [clearZoomTimeout_all s h]
      constructor
      · simp
      · intro t ht2
        rw [List.nil_append, List.mem_singleton] at ht2
        subst ht2
        rfl
    · rw [if_neg ht]
      exact h
  | fire i =>
    unfold stepEvent fireTimer
    dsimp only
    cases hf : s.timers.find? (fun t => t.id = i) with
    | none => exact h
    | some t =>
      dsimp only
      constructor
      · calc (s.timers.filter (fun u => u.id ≠ i)).length
            ≤ s.timers.length := List.length_filter_le _ _
          _ ≤ 1 := h.1
      · intro u hu
        exact h.2 u (List.mem_of_mem_filter hu)

/-- C8 counterexample: in the burst `zoom@100, zoom@110, zoom@120`
(interval 60 ms, initial `lastUpdateTime = 0`), the event at 110 arms
the deferred task for time 170, and the event at 120 re-arms it for
time 180 — the arrival of a new transform *does* change the pending
task's firing time (and 180 is not `100 + 60`, the fixed interval
after the last completed redraw, either).  Moreover in the trace
`zoom@100, zoom@110, zoom@170, fire`, the immediate redraw at 170 does
not cancel the pending timer, which then fires with the *older*
transform captured at 110 — the last redraw of the burst is not the
latest transform. -/
theorem throttle_firing_time_moves :
    (runEvents ZoomSim.init
      [.transform 100 ⟨1, 0⟩, .transform 110 ⟨2, 0⟩,
       .transform 120 ⟨3, 0⟩]).timers =
      [{ id := 1, fireTime := 180, payload := ⟨3, 0⟩ }] ∧
    (180 : ℚ) ≠ 170 ∧ (180 : ℚ) ≠ 100 + throttleInterval ∧
    (runEvents ZoomSim.init
      [.transform 100 ⟨1, 0⟩, .transform 110 ⟨2, 0⟩,
       .transform 170 ⟨4, 0⟩, .fire 0]).rendered =
      [(100, ⟨1, 0⟩), (170, ⟨4, 0⟩), (170, ⟨2, 0⟩)] := by
  refine ⟨?_, by norm_num, by norm_num [throttleInterval], ?_⟩
  · norm_num [runEvents, stepEvent, onZoom, fireTimer, ZoomSim.init,
      throttleInterval, clearZoomTimeout, List.find?, List.filter]
  · norm_num [runEvents, stepEvent, onZoom, fireTimer, ZoomSim.init,
      throttleInterval, clearZoomTimeout, List.find?, List.filter]

/-- C8 amended: (1) at most one deferred redraw task is ever pending,
and the armed task is the one tracked by the `zoomTimeout` variable;
(2) a transform arriving within the throttle interval cancels the
pending task and arms a fresh one capturing the new transform — but
firing a full interval after *that event*, so the firing time moves
with each arrival (debouncing), and no redraw happens yet; (3) a
transform arriving after the interval redraws immediately without
cancelling a pending task (which can later fire with its older
captured transform). -/
theorem throttle_scheduler_contract :
    (∀ es : List ZoomEvent, atMostOnePending (runEvents ZoomSim.init es)) ∧
    (∀ (s : ZoomSim) (now : ℚ) (τ : LinearScale),
      now - s.lastUpdateTime < throttleInterval →
      (onZoom s now τ).timers =
        clearZoomTimeout s.timers s.zoomTimeout ++
          [{ id := s.nextId, fireTime := now + throttleInterval
             payload := τ }] ∧
      (onZoom s now τ).rendered = s.rendered) ∧
    (∀ (s : ZoomSim) (now : ℚ) (τ : LinearScale),
      ¬(now - s.lastUpdateTime < throttleInterval) →
      (onZoom s now τ).timers = s.timers ∧
      (onZoom s now τ).rendered = s.rendered ++ [(now, τ)]) := by
  refine ⟨?_, ?_, ?_⟩
  · suffices h : ∀ (es : List ZoomEvent) (s : ZoomSim), atMostOnePending s →
        atMostOnePending (runEvents s es) by
      refine fun es => h es ZoomSim.init ⟨by simp [ZoomSim.init], ?_⟩
      intro t ht
      simp [ZoomSim.init] at ht
    intro es
    induction es with
    | nil => intro s h; exact h
    | cons e rest ih =>
      intro s h
      exact ih (stepEvent s e) (stepEvent_preserves s e h)
  · intro s now τ ht
    unfold onZoom
    rw [if_pos ht]
    exact ⟨rfl, rfl⟩
  · intro s now τ ht
    unfold onZoom
    rw [if_neg ht]
    exact ⟨rfl, rfl⟩

/-- Witness for the amended C8 theorem: from the initial state, a
transform at time 10 (inside the throttle window) arms one task firing
at `10 + 60` with no redraw, and the invariant holds after the
three-event burst of the counterexample trace. -/
theorem throttle_scheduler_contract_witness :
    ((onZoom ZoomSim.init 10 ⟨1, 0⟩).timers =
      clearZoomTimeout ZoomSim.init.timers ZoomSim.init.zoomTimeout ++
        [{ id := ZoomSim.init.nextId, fireTime := (10 : ℚ) + throttleInterval
           payload := ⟨1, 0⟩ }] ∧
     (onZoom ZoomSim.init 10 ⟨1, 0⟩).rendered = ZoomSim.init.rendered) ∧
    atMostOnePending (runEvents ZoomSim.init
      [.transform 100 ⟨1, 0⟩, .transform 110 ⟨2, 0⟩,
       .transform 120 ⟨3, 0⟩]) :=
  ⟨throttle_scheduler_contract.2.1 ZoomSim.init 10 ⟨1, 0⟩
      (by norm_num [ZoomSim.init, throttleInterval]),
   throttle_scheduler_contract.1
     [.transform 100 ⟨1, 0⟩, .transform 110 ⟨2, 0⟩, .transform 120 ⟨3, 0⟩]⟩

end GenomeBrowser
